import Mathlib

/-!
Verification of the serverless ETL / broadcast / event-dispatch handlers.

Shallow embedding of the Python handlers in
`serverless_app/lambdas/etl_processor/{extract,transform,load}.py`,
`serverless_app/lambdas/websocket_handler/default.py` and
`serverless_app/lambdas/event_handlers/order_processor.py`.

Modelling conventions:
- Python/JSON dynamic values are the inductive `PyVal`.  Python dicts are
  association lists with unique keys (Python dict semantics); insertion
  order is preserved, as in CPython.
- CPython floats are modelled as exact rationals.  Every float literal and
  arithmetic result appearing in the handlers and in the claims is exactly
  representable, and `str()` of such a float is its finite decimal
  rendering.  Non-finite floats (nan/inf) are outside the model.
- `decimal.Decimal` values (produced by the DynamoDB SDK for numbers) are
  the `PyVal.dec` constructor, also carrying an exact rational.
- A crucial CPython fact mirrored throughout: `bool` is a subclass of
  `int`, so `isinstance(True, (int, float))` is `True` and
  `Decimal(str(True))` raises `InvalidOperation`.
- Fallible Python code is `Except String`; the string is the exception
  message (message text is abbreviated, only its presence matters).
- External stores: S3 is a partial map from key to parsed JSON content;
  the DynamoDB destination table of the loader is modelled through the
  documented `put_item` contract for the key schema declared in
  `etl_pipeline_stack.py` (partition key `id : S`, sort key
  `timestamp : S`): a put succeeds iff both key attributes are present,
  of string type and non-empty, and otherwise raises `ClientError`.
-/

/-- A dynamically typed Python/JSON value as it flows through the handlers. -/
inductive PyVal where
  | none : PyVal
  | bool : Bool → PyVal
  | int : Int → PyVal
  | float : ℚ → PyVal
  | dec : ℚ → PyVal
  | str : String → PyVal
  | list : List PyVal → PyVal
  | dict : List (String × PyVal) → PyVal

/-- First-match lookup in a Python dict (keys are unique, so this is `d[k]`). -/
def dictLookup (kvs : List (String × PyVal)) (k : String) : Option PyVal :=
  (kvs.find? (fun p => p.1 = k)).map (fun p => p.2)

/-- Python `d.get(k, default)`: the stored value (even `None`) when the key
is present, the default otherwise. -/
def dictGet (kvs : List (String × PyVal)) (k : String) (d : PyVal) : PyVal :=
  match dictLookup kvs k with
  | some v => v
  | Option.none => d

/-- Python `k in d` for a dict. -/
def hasKey (kvs : List (String × PyVal)) (k : String) : Bool :=
  kvs.any (fun p => p.1 = k)

/-- Python dict assignment `d[k] = v`: replace in place when the key exists
(keeping its position, as CPython does), append otherwise. -/
def dictSet (kvs : List (String × PyVal)) (k : String) (v : PyVal) :
    List (String × PyVal) :=
  if hasKey kvs k then
    kvs.map (fun p => if p.1 = k then (k, v) else p)
  else
    kvs ++ [(k, v)]

/-- Left-pad the decimal digits of `m` with zeros to width `k`. -/
def padDigits (k : Nat) (m : Nat) : String :=
  let t := toString m
  String.mk (List.replicate (k - t.length) '0') ++ t

/-- Finite decimal rendering of a rational: the exact decimal expansion when
the denominator divides a power of ten (which holds for every CPython float
and Decimal in scope), a fraction rendering otherwise (outside the model). -/
def ratDecimalStr (q : ℚ) : String :=
  let sign := if q < 0 then "-" else ""
  let a := q.num.natAbs
  let d := q.den
  match (List.range 41).find? (fun k => 10 ^ k * a % d = 0) with
  | some k =>
      if k = 0 then sign ++ toString (a / d)
      else sign ++ toString (a / d) ++ "." ++ padDigits k ((10 ^ k * a / d) % 10 ^ k)
  | Option.none => sign ++ toString a ++ "/" ++ toString d

/-- CPython `str()` of a float: integral floats get a trailing `.0`. -/
def pyFloatStr (q : ℚ) : String :=
  if q.den = 1 then ratDecimalStr q ++ ".0" else ratDecimalStr q

/-- A single-quote character, used by CPython `repr` of strings. -/
def sQuote : String := String.mk ['\x27']

mutual

/-- CPython `repr` of a value (string escapes inside `repr` are not
modelled; no value in scope needs them). -/
def pyRepr : PyVal → String
  | .none => "None"
  | .bool true => "True"
  | .bool false => "False"
  | .int n => toString n
  | .float q => pyFloatStr q
  | .dec q => "Decimal(" ++ sQuote ++ ratDecimalStr q ++ sQuote ++ ")"
  | .str s => sQuote ++ s ++ sQuote
  | .list xs => "[" ++ String.intercalate ", " (pyReprList xs) ++ "]"
  | .dict kvs =>
      "\x7b" ++ String.intercalate ", " (pyReprKVs kvs) ++ "\x7d"

/-- `repr` of the elements of a list. -/
def pyReprList : List PyVal → List String
  | [] => []
  | v :: vs => pyRepr v :: pyReprList vs

/-- `repr` of the entries of a dict. -/
def pyReprKVs : List (String × PyVal) → List String
  | [] => []
  | (k, v) :: ps => (sQuote ++ k ++ sQuote ++ ": " ++ pyRepr v) :: pyReprKVs ps

end

/-- CPython `str()`: identity on strings, plain digits for Decimal,
`repr` everywhere else (container elements rendered with `repr`). -/
def pyStr : PyVal → String
  | .str s => s
  | .dec q => ratDecimalStr q
  | v => pyRepr v

/-- Parse a digit run; `Option.none` when empty or a non-digit occurs. -/
def digitsToNat : List Char → Option Nat
  | [] => Option.none
  | cs =>
      if cs.all Char.isDigit then
        some (cs.foldl (fun acc c => acc * 10 + (c.toNat - '0'.toNat)) 0)
      else Option.none

/-- CPython `int(s)` on a string: optional surrounding spaces, optional
sign, a nonempty digit run (digit-separating underscores not modelled). -/
def pyIntOfStr (s : String) : Option Int :=
  let cs := ((s.data.dropWhile (fun c => c = ' ')).reverse.dropWhile
      (fun c => c = ' ')).reverse
  match cs with
  | '-' :: rest => (digitsToNat rest).map (fun n => -(n : Int))
  | '+' :: rest => (digitsToNat rest).map (fun n => (n : Int))
  | rest => (digitsToNat rest).map (fun n => (n : Int))

/-- Digit run that may be empty (used for the parts of a float literal). -/
def digitsToNatOrEmpty : List Char → Option (Nat × Nat)
  | cs =>
      if cs.all Char.isDigit then
        some (cs.foldl (fun acc c => acc * 10 + (c.toNat - '0'.toNat)) 0, cs.length)
      else Option.none

/-- Parse the mantissa `digits[.digits]` of a float literal; at least one
digit must be present overall.  Returns the rational value. -/
def parseMantissa (cs : List Char) : Option ℚ :=
  match cs.splitOn '.' with
  | [ip] => (digitsToNat ip).map (fun n => (n : ℚ))
  | [ip, fp] =>
      match digitsToNatOrEmpty ip, digitsToNatOrEmpty fp with
      | some (i, il), some (f, fl) =>
          if il + fl = 0 then Option.none
          else some ((i : ℚ) + (f : ℚ) / (10 : ℚ) ^ fl)
      | _, _ => Option.none
  | _ => Option.none

/-- CPython `float(s)` on a string: optional spaces, optional sign,
`digits[.digits][e[sign]digits]`.  `nan`/`inf` and underscores are outside
the model. -/
def pyFloatOfStr (s : String) : Option ℚ :=
  let cs := ((s.data.dropWhile (fun c => c = ' ')).reverse.dropWhile
      (fun c => c = ' ')).reverse
  let signed : List Char → Option (Bool × List Char) := fun l =>
    match l with
    | '-' :: rest => some (true, rest)
    | '+' :: rest => some (false, rest)
    | rest => some (false, rest)
  match signed cs with
  | some (neg, body) =>
      let body := body.map Char.toLower
      match body.splitOn 'e' with
      | [m] => (parseMantissa m).map (fun q => if neg then -q else q)
      | [m, e] =>
          match parseMantissa m, e with
          | some q, '-' :: ed =>
              (digitsToNat ed).map (fun n =>
                (if neg then -q else q) / (10 : ℚ) ^ n)
          | some q, '+' :: ed =>
              (digitsToNat ed).map (fun n =>
                (if neg then -q else q) * (10 : ℚ) ^ n)
          | some q, ed =>
              (digitsToNat ed).map (fun n =>
                (if neg then -q else q) * (10 : ℚ) ^ n)
          | _, _ => Option.none
      | _ => Option.none
  | Option.none => Option.none

/-- Truncation toward zero, the behaviour of CPython `int()` on a float. -/
def pyTrunc (q : ℚ) : Int := Int.tdiv q.num (q.den : Int)

/-- CPython builtin `float(v)`.  Raises `TypeError` on None/list/dict and
`ValueError` on an unparsable string; both are caught wherever the
handlers call it. -/
def pyFloat : PyVal → Except String ℚ
  | .int n => .ok (n : ℚ)
  | .float q => .ok q
  | .dec q => .ok q
  | .bool b => .ok (if b then 1 else 0)
  | .str s =>
      match pyFloatOfStr s with
      | some q => .ok q
      | Option.none => .error "ValueError: could not convert string to float"
  | _ => .error "TypeError: float() argument"

/-- CPython builtin `int(v)`. -/
def pyInt : PyVal → Except String Int
  | .int n => .ok n
  | .float q => .ok (pyTrunc q)
  | .dec q => .ok (pyTrunc q)
  | .bool b => .ok (if b then 1 else 0)
  | .str s =>
      match pyIntOfStr s with
      | some n => .ok n
      | Option.none => .error "ValueError: invalid literal for int()"
  | _ => .error "TypeError: int() argument"

/-- Whether `pat` occurs as a contiguous run inside `l`. -/
def subOccurs (pat : List Char) : List Char → Bool
  | [] => pat.isEmpty
  | c :: cs => pat.isPrefixOf (c :: cs) || subOccurs pat cs

/-- Python membership test `k in v` for a string `k`: key membership on a
dict, element membership on a list (a string equals only that string),
substring test on a string, `TypeError` otherwise. -/
def pyContains (k : String) : PyVal → Except String Bool
  | .dict kvs => .ok (hasKey kvs k)
  | .list xs => .ok (xs.any (fun v => match v with | .str s => s = k | _ => false))
  | .str s => .ok (subOccurs k.data s.data)
  | _ => .error "TypeError: argument is not iterable"

/-- Python subscript `v[k]` for a string key: dict lookup (`KeyError` when
missing), `TypeError` on anything else. -/
def pyGetItem (v : PyVal) (k : String) : Except String PyVal :=
  match v with
  | .dict kvs =>
      match dictLookup kvs k with
      | some w => .ok w
      | Option.none => .error "KeyError"
  | _ => .error "TypeError: not subscriptable"

/-- Python truthiness `not v` is `pyFalsy v`. -/
def pyFalsy : PyVal → Bool
  | .none => true
  | .bool b => !b
  | .int n => n = 0
  | .float q => q = 0
  | .dec q => q = 0
  | .str s => s = ""
  | .list xs => xs.isEmpty
  | .dict kvs => kvs.isEmpty

mutual

/-- One serialize/parse cycle `json.loads(json.dumps(v, default=str))`:
JSON-native values survive unchanged, while a `Decimal` (not JSON
serializable) is rendered through `default=str` and comes back as a JSON
string. -/
def jsonRoundTrip : PyVal → PyVal
  | .dec q => .str (ratDecimalStr q)
  | .list xs => .list (jsonRoundTripList xs)
  | .dict kvs => .dict (jsonRoundTripKVs kvs)
  | v => v

def jsonRoundTripList : List PyVal → List PyVal
  | [] => []
  | v :: vs => jsonRoundTrip v :: jsonRoundTripList vs

def jsonRoundTripKVs : List (String × PyVal) → List (String × PyVal)
  | [] => []
  | (k, v) :: ps => (k, jsonRoundTrip v) :: jsonRoundTripKVs ps

end

/-! ## Storage keys (`str.replace` in transform.py line 104 and load.py line 107) -/

/-- CPython `str.replace`: every non-overlapping occurrence of the pattern,
scanning left to right, is replaced.  The empty-pattern case never arises in
the handlers and is modelled as the identity. -/
def pyReplace (pat rep : List Char) (s : List Char) : List Char :=
  match pat, s with
  | [], l => l
  | _ :: _, [] => []
  | p :: ps, c :: cs =>
      if (p :: ps).isPrefixOf (c :: cs) then
        rep ++ pyReplace (p :: ps) rep ((c :: cs).drop (p :: ps).length)
      else
        c :: pyReplace (p :: ps) rep cs
termination_by s.length
decreasing_by
  · simp only [List.length_drop, List.length_cons]
    omega
  · simp

/-- `s.replace(pat, rep)` on strings. -/
def strReplace (s pat rep : String) : String :=
  String.mk (pyReplace pat.data rep.data s.data)

/-- transform.py line 104: `staging_key.replace('extracted/', 'transformed/')`. -/
def transformedKeyOf (stagingKey : String) : String :=
  strReplace stagingKey "extracted/" "transformed/"

/-- load.py line 107: `transformed_key.replace('transformed/', 'archived/')`. -/
def archiveKeyOf (transformedKey : String) : String :=
  strReplace transformedKey "transformed/" "archived/"

/-! ## Stage Reader/Transformer (transform.py handler, lines 44-101) -/

/-- transform.py lines 50-58, one field of the per-record coercion loop:
a `Decimal` becomes a float, a dict carrying an `S` tag is unwrapped to its
tagged value, a dict carrying an `N` tag is unwrapped through `float()`
(whose ValueError/TypeError propagates to the record-level handler),
anything else passes through unchanged.  After `json.loads` the `Decimal`
branch is unreachable, but it is embedded faithfully. -/
def coerceField (v : PyVal) : Except String PyVal :=
  match v with
  | .dec q => .ok (.float q)
  | .dict kvs =>
      if hasKey kvs "S" then .ok (dictGet kvs "S" .none)
      else if hasKey kvs "N" then (pyFloat (dictGet kvs "N" .none)).map (fun q => .float q)
      else .ok (.dict kvs)
  | w => .ok w

/-- transform.py lines 49-58: build `record_dict` by coercing every field of
the record in order; the first exception drops the whole record. -/
def coerceRecordDict : List (String × PyVal) → Except String (List (String × PyVal))
  | [] => .ok []
  | (k, v) :: rest =>
      match coerceField v with
      | .error e => .error e
      | .ok w =>
          match coerceRecordDict rest with
          | .error e => .error e
          | .ok tail => .ok ((k, w) :: tail)

/-- transform.py lines 91-94: copy every field whose key is not in the
exclusion list into the `data` dict (a colliding key overwrites in place). -/
def copyOthers (d : List (String × PyVal)) : List (String × PyVal) → List (String × PyVal)
  | [] => d
  | (k, v) :: rest =>
      if k ∈ ["id", "partition_key", "timestamp", "value", "count", "total_value"] then
        copyOthers d rest
      else
        copyOthers (dictSet d k v) rest

/-- transform.py lines 68-79: the `data` dict after the optional numeric
coercions of the `value` and `count` fields (each silently skipped when
`float()`/`int()` raises). -/
def transformDataVC (rd : List (String × PyVal)) : List (String × PyVal) :=
  let d0 : List (String × PyVal) := []
  let d1 := match dictLookup rd "value" with
    | some v =>
        match pyFloat v with
        | .ok q => dictSet d0 "value" (.float q)
        | .error _ => d0
    | Option.none => d0
  match dictLookup rd "count" with
  | some v =>
      match pyInt v with
      | .ok n => dictSet d1 "count" (.int n)
      | .error _ => d1
  | Option.none => d1

/-- transform.py lines 81-89: the `data` dict after the derived `average`
field (computed only when both fields are present and convertible and the
divisor is positive; the guard keeps the division from ever running on a
zero divisor, and conversion failures are swallowed). -/
def transformDataCore (rd : List (String × PyVal)) : List (String × PyVal) :=
  match dictLookup rd "total_value", dictLookup rd "count" with
  | some tv, some c =>
      match pyFloat tv, pyInt c with
      | .ok t, .ok n =>
          if 0 < n then dictSet (transformDataVC rd) "average" (.float (t / (n : ℚ)))
          else transformDataVC rd
      | _, _ => transformDataVC rd
  | _, _ => transformDataVC rd

/-- transform.py lines 61-94: assemble the transformed record from the
coerced `record_dict`.  `now` stands for `datetime.utcnow().isoformat()+'Z'`
(its value is irrelevant to every claim). -/
def mkTransformed (now : String) (rd : List (String × PyVal)) : List (String × PyVal) :=
  [("id", dictGet rd "id" (dictGet rd "partition_key" (.str "unknown"))),
   ("timestamp", dictGet rd "timestamp" (.str now)),
   ("processed_at", .str now),
   ("data", .dict (copyOthers (transformDataCore rd) rd))]

/-- transform.py lines 44-101, one record of the loop: a non-dict record or
a coercion failure raises, is logged and drops the record; otherwise the
transformed record is produced. -/
def transformRecord (now : String) (record : PyVal) : Except String PyVal :=
  match record with
  | .dict kvs =>
      match coerceRecordDict kvs with
      | .error e => .error e
      | .ok rd => .ok (.dict (mkTransformed now rd))
  | _ => .error "AttributeError: object has no attribute items"

/-- transform.py lines 42-101: the transformed batch keeps exactly the
records whose transformation did not raise. -/
def transformBatch (now : String) (records : List PyVal) : List PyVal :=
  records.filterMap (fun r => (transformRecord now r).toOption)

/-! ## Loader (load.py handler) -/

/-- load.py lines 79-86, one value of the nested-dict conversion loop:
`None` is skipped, `int`/`float` (which in CPython include booleans, so a
boolean raises `InvalidOperation` in `Decimal(str(v))`) becomes `Decimal`,
everything else is stringified with `str()`.  The dedicated
`isinstance(v, bool)` branch is unreachable and therefore absent here. -/
def nestedField (v : PyVal) : Except String (Option PyVal) :=
  match v with
  | .none => .ok Option.none
  | .int n => .ok (some (.dec (n : ℚ)))
  | .float q => .ok (some (.dec q))
  | .bool _ => .error "InvalidOperation: Decimal of a boolean str()"
  | w => .ok (some (.str (pyStr w)))

/-- load.py lines 77-87: the nested-dict conversion loop. -/
def nestedConvert : List (String × PyVal) → Except String (List (String × PyVal))
  | [] => .ok []
  | (k, v) :: rest =>
      match nestedField v with
      | .error e => .error e
      | .ok Option.none => nestedConvert rest
      | .ok (some w) => (nestedConvert rest).map (fun tail => (k, w) :: tail)

/-- load.py lines 68-92, one field of the DynamoDB-format conversion:
`None` dropped; `int`/`float` (booleans included, raising) to `Decimal`;
dicts through the nested loop; list elements stringified with `str()`
(including `None` and booleans); any other value stringified. -/
def convertField (value : PyVal) : Except String (Option PyVal) :=
  match value with
  | .none => .ok Option.none
  | .int n => .ok (some (.dec (n : ℚ)))
  | .float q => .ok (some (.dec q))
  | .bool _ => .error "InvalidOperation: Decimal of a boolean str()"
  | .dict kvs => (nestedConvert kvs).map (fun m => some (.dict m))
  | .list xs => .ok (some (.list (xs.map (fun v => PyVal.str (pyStr v)))))
  | w => .ok (some (.str (pyStr w)))

/-- load.py lines 67-92: convert every field of the record in order,
dropping `None` fields; the first exception fails the whole record. -/
def convertItem : List (String × PyVal) → Except String (List (String × PyVal))
  | [] => .ok []
  | (k, v) :: rest =>
      match convertField v with
      | .error e => .error e
      | .ok Option.none => convertItem rest
      | .ok (some w) => (convertItem rest).map (fun tail => (k, w) :: tail)

/-- The documented `put_item` contract for the destination table declared in
`etl_pipeline_stack.py` (partition key `id : S`, sort key `timestamp : S`):
the write succeeds iff both key attributes are present, are strings and are
non-empty; otherwise DynamoDB raises a `ClientError` caught by the
per-record handler. -/
def putItemOk (item : List (String × PyVal)) : Bool :=
  match dictLookup item "id", dictLookup item "timestamp" with
  | some (.str i), some (.str t) => !(i = "") && !(t = "")
  | _, _ => false

/-- load.py lines 51-103, one record of the loop: the id/timestamp presence
checks, the format conversion and the `put_item` call; any exception is the
record's error message. -/
def loadRecord (record : PyVal) : Except String (List (String × PyVal)) :=
  match pyContains "id" record with
  | .error e => .error e
  | .ok false => .error "Record missing id field"
  | .ok true =>
      match pyContains "timestamp" record with
      | .error e => .error e
      | .ok false => .error "Record missing timestamp field"
      | .ok true =>
          match record with
          | .dict kvs =>
              match convertItem kvs with
              | .error e => .error e
              | .ok item =>
                  if putItemOk item then .ok item
                  else .error "ClientError: ValidationException on put_item"
          | _ => .error "AttributeError: object has no attribute items"

/-- load.py lines 48-103: the batch loop, threading the loaded counter and
the error list (errors are appended in encounter order). -/
def loadBatchAux : List PyVal → Nat → List String → Nat × List String
  | [], n, es => (n, es)
  | r :: rest, n, es =>
      match loadRecord r with
      | .ok _ => loadBatchAux rest (n + 1) es
      | .error e => loadBatchAux rest n (es ++ [e])

/-- The structured return value of the load handler. -/
structure LoadResponse where
  statusCode : Nat
  recordsLoaded : Nat
  errors : Nat
  errorDetails : List String
deriving DecidableEq

/-- load.py lines 37-44 and 119-124: the empty batch short-circuits, a
non-empty batch reports the loaded count, the full error count and the
first five error messages. -/
def loadResponse (records : List PyVal) : LoadResponse :=
  if records.isEmpty then ⟨200, 0, 0, []⟩
  else
    let p := loadBatchAux records 0 []
    ⟨200, p.1, p.2.length, p.2.take 5⟩

/-- load.py lines 19-26: accept the transformed key directly or nested one
level under a `Payload` wrapper; both the explicit `ValueError` and any
`TypeError` from probing a non-dict wrapper escape the handler, since this
code runs before the `try` block. -/
def getTransformedKey (event : List (String × PyVal)) : Except String PyVal :=
  match dictLookup event "transformedKey" with
  | some v => .ok v
  | Option.none =>
      match dictLookup event "Payload" with
      | Option.none => .error "ValueError: transformedKey not found in event"
      | some p =>
          match pyContains "transformedKey" p with
          | .error e => .error e
          | .ok true => pyGetItem p "transformedKey"
          | .ok false => .error "ValueError: transformedKey not found in event"

/-- The load handler over a blob store (a map from key to parsed JSON
batch): extract the key, read the blob, run the batch.  A missing blob or a
non-string key raises inside the `try` and is re-raised to the caller. -/
def loadHandler (store : String → Option (List PyVal)) (event : List (String × PyVal)) :
    Except String LoadResponse :=
  match getTransformedKey event with
  | .error e => .error e
  | .ok (.str k) =>
      match store k with
      | some records => .ok (loadResponse records)
      | Option.none => .error "Error in load step: NoSuchKey"
  | .ok _ => .error "Error in load step: invalid key"

/-! ## Fan-out Broadcaster (websocket_handler/default.py, lines 90-119) -/

/-- A row of the connections table (only the fields the broadcast reads). -/
structure Conn where
  connection_id : String
  room : String
deriving DecidableEq

/-- default.py lines 101-116: iterate over the scanned room members; a
successful post records the recipient; a failed post triggers a best-effort
delete of that connection from the table (a failed delete is swallowed and
the loop continues either way).  `postOk`/`delOk` say which connection ids
the external endpoint delivers to and which deletes succeed. -/
def broadcastGo (postOk delOk : String → Bool) :
    List Conn → List Conn → List String × List Conn
  | [], tbl => ([], tbl)
  | c :: cs, tbl =>
      if postOk c.connection_id then
        let p := broadcastGo postOk delOk cs tbl
        (c.connection_id :: p.1, p.2)
      else if delOk c.connection_id then
        broadcastGo postOk delOk cs
          (tbl.filter (fun d => d.connection_id ≠ c.connection_id))
      else
        broadcastGo postOk delOk cs tbl

/-- default.py lines 96-99: the scan snapshot of the room members. -/
def broadcastTargets (table : List Conn) (room : String) : List Conn :=
  table.filter (fun c => c.room = room)

/-- default.py `broadcast_message`: returns the ids delivered to and the
connections table after the stale-connection cleanup. -/
def broadcastMessage (postOk delOk : String → Bool) (table : List Conn) (room : String) :
    List String × List Conn :=
  broadcastGo postOk delOk (broadcastTargets table room) table

/-! ## Order event handler (event_handlers/order_processor.py, lines 39-123) -/

/-- A stored order item, keyed by its `order_id` string. -/
abbrev OrdersTable := List (String × List (String × PyVal))

/-- Order lookup by key in the orders table. -/
def tblLookup (tbl : OrdersTable) (oid : String) : Option (List (String × PyVal)) :=
  (tbl.find? (fun p => p.1 = oid)).map (fun p => p.2)

/-- DynamoDB `put_item` on the orders table: replace the item with the same
partition key, append otherwise. -/
def putOrder (tbl : OrdersTable) (oid : String) (item : List (String × PyVal)) :
    OrdersTable :=
  tbl.filter (fun p => p.1 ≠ oid) ++ [(oid, item)]

/-- DynamoDB `update_item` with `SET #status = :status` on the orders
table: sets the single attribute on the existing item, or creates an item
holding only the key and that attribute when none exists. -/
def updateOrderStatus (tbl : OrdersTable) (oid : String) : OrdersTable :=
  if tbl.any (fun p => p.1 = oid) then
    tbl.map (fun p =>
      if p.1 = oid then (oid, dictSet p.2 "status" (.str "completed")) else p)
  else
    tbl ++ [(oid, [("order_id", .str oid), ("status", .str "completed")])]

/-- order_processor.py lines 50-87, the `order.created` branch: a falsy or
non-string `orderId` leaves the table unchanged (falsy is skipped by the
code, a non-string key is rejected by DynamoDB and caught); otherwise the
initial record is written.  The SNS notification has no effect on the
table. -/
def handleCreated (od : PyVal) (tbl : OrdersTable) : OrdersTable × Bool :=
  match od with
  | .dict okvs =>
      let oid := dictGet okvs "orderId" (.str "")
      if pyFalsy oid then (tbl, false)
      else
        match oid with
        | .str s =>
            (putOrder tbl s
              [("order_id", .str s),
               ("status", .str "processing"),
               ("customer_id", dictGet okvs "customerId" (.str "")),
               ("items", dictGet okvs "items" (.list [])),
               ("total", dictGet okvs "total" (.int 0)),
               ("created_at", dictGet okvs "createdAt" (.str ""))], true)
        | _ => (tbl, false)
  | _ => (tbl, false)

/-- order_processor.py lines 89-121, the `order.completed` branch. -/
def handleCompleted (od : PyVal) (tbl : OrdersTable) : OrdersTable × Bool :=
  match od with
  | .dict okvs =>
      let oid := dictGet okvs "orderId" (.str "")
      if pyFalsy oid then (tbl, false)
      else
        match oid with
        | .str s => (updateOrderStatus tbl s, true)
        | _ => (tbl, false)
  | _ => (tbl, false)

/-- order_processor.py lines 45-123 for one already-decoded `detail`
envelope: read the declared event type and data payload, dispatch on the
type string, skip unknown types; any exception is caught and skips the
event. -/
def processDetail (detail : PyVal) (tbl : OrdersTable) : OrdersTable × Bool :=
  match detail with
  | .dict dkvs =>
      let et := dictGet dkvs "eventType" (.str "")
      let od := dictGet dkvs "data" (.dict [])
      match et with
      | .str s =>
          if s = "order.created" then handleCreated od tbl
          else if s = "order.completed" then handleCompleted od tbl
          else (tbl, false)
      | _ => (tbl, false)
  | _ => (tbl, false)

/-- The `detail` envelope of an `order.created` event carrying only the
order identifier (the other payload fields default). -/
def createdDetail (oid : String) : PyVal :=
  .dict [("eventType", .str "order.created"), ("data", .dict [("orderId", .str oid)])]

/-- The `detail` envelope of an `order.completed` event. -/
def completedDetail (oid : String) : PyVal :=
  .dict [("eventType", .str "order.completed"), ("data", .dict [("orderId", .str oid)])]

/-! ## Helper lemmas about the loader batch loop -/

theorem loadBatchAux_fst (records : List PyVal) : ∀ (n : Nat) (es : List String),
    (loadBatchAux records n es).1 = n + (loadBatchAux records 0 []).1 := by
  induction records with
  | nil => intro n es; simp [loadBatchAux]
  | cons r rest ih =>
      intro n es
      cases h : loadRecord r with
      | ok it =>
          simp only [loadBatchAux, h]
          rw [ih (n + 1) es, ih 1 []]
          omega
      | error e =>
          simp only [loadBatchAux, h]
          rw [ih n (es ++ [e]), ih 0 ([] ++ [e])]
          omega

theorem loadBatchAux_snd (records : List PyVal) : ∀ (n : Nat) (es : List String),
    (loadBatchAux records n es).2 = es ++ (loadBatchAux records 0 []).2 := by
  induction records with
  | nil => intro n es; simp [loadBatchAux]
  | cons r rest ih =>
      intro n es
      cases h : loadRecord r with
      | ok it =>
          simp only [loadBatchAux, h]
          rw [ih (n + 1) es, ih 1 []]
          simp
      | error e =>
          simp only [loadBatchAux, h]
          rw [ih n (es ++ [e]), ih 0 ([] ++ [e])]
          simp

theorem loadBatchAux_total (records : List PyVal) :
    (loadBatchAux records 0 []).1 + (loadBatchAux records 0 []).2.length = records.length := by
  induction records with
  | nil => simp [loadBatchAux]
  | cons r rest ih =>
      cases h : loadRecord r with
      | ok it =>
          simp only [loadBatchAux, h]
          rw [loadBatchAux_fst rest 1 [], loadBatchAux_snd rest 1 []]
          simpa [Nat.add_comm, Nat.add_assoc, Nat.add_left_comm] using congrArg (· + 1) ih
      | error e =>
          simp only [loadBatchAux, h, List.nil_append]
          rw [loadBatchAux_fst rest 0 [e], loadBatchAux_snd rest 0 [e]]
          simp only [List.length_append, List.cons_append, List.nil_append,
            List.length_cons, List.length_nil]
          omega

theorem loadBatchAux_append (xs ys : List PyVal) : ∀ (n : Nat) (es : List String),
    loadBatchAux (xs ++ ys) n es =
      loadBatchAux ys (loadBatchAux xs n es).1 (loadBatchAux xs n es).2 := by
  induction xs with
  | nil => intro n es; simp [loadBatchAux]
  | cons r rest ih =>
      intro n es
      cases h : loadRecord r with
      | ok it => simp only [List.cons_append, loadBatchAux, h]; exact ih _ _
      | error e => simp only [List.cons_append, loadBatchAux, h]; exact ih _ _

/-! ## C1: the loader accounts for every record -/

/-- C1: for every non-empty transformed batch the Loader reads, the response
has status 200, `recordsLoaded + errors` equals the batch size (each record
is counted exactly once, as loaded or as an error), `errors` is the full
length of the error list gathered by the loop, and `errorDetails` is the
first-five sample of that list (hence never more than 5 messages). -/
theorem load_response_accounts_for_all_records (records : List PyVal) (h : records ≠ []) :
    (loadResponse records).statusCode = 200 ∧
    (loadResponse records).recordsLoaded + (loadResponse records).errors = records.length ∧
    (loadResponse records).errors = (loadBatchAux records 0 []).2.length ∧
    (loadResponse records).errorDetails = (loadBatchAux records 0 []).2.take 5 ∧
    (loadResponse records).errorDetails.length ≤ 5 := by
  have hne : records.isEmpty = false := by
    cases records with
    | nil => exact absurd rfl h
    | cons a l => rfl
  refine ⟨?_, ?_, ?_, ?_, ?_⟩ <;>
    simp only [loadResponse, hne, Bool.false_eq_true, if_false]
  · exact loadBatchAux_total records
  · simp [List.length_take]

/-- Witness for C1 at the one-record batch `[{}]` (the record is missing
`id`, so it is counted as an error and the response reads 0 loaded / 1
error). -/
theorem load_response_accounts_for_all_records_witness :
    (loadResponse [PyVal.dict []]).statusCode = 200 ∧
    (loadResponse [PyVal.dict []]).recordsLoaded + (loadResponse [PyVal.dict []]).errors =
      [PyVal.dict []].length ∧
    (loadResponse [PyVal.dict []]).errors = (loadBatchAux [PyVal.dict []] 0 []).2.length ∧
    (loadResponse [PyVal.dict []]).errorDetails = (loadBatchAux [PyVal.dict []] 0 []).2.take 5 ∧
    (loadResponse [PyVal.dict []]).errorDetails.length ≤ 5 :=
  load_response_accounts_for_all_records [PyVal.dict []] (by simp)

/-! ## C3: staging round-trip of scalars -/

/-- Whether a Python value is numeric (int, float or Decimal). -/
def isNumericPy : PyVal → Bool
  | .int _ => true
  | .float _ => true
  | .dec _ => true
  | _ => false

/-- C3 (falsified, code bug): the DynamoDB number 42 (a Python `Decimal`)
written by the Staging Writer via `json.dumps(..., default=str)` lands in
the staging blob as the JSON string `"42"`; the Stage Reader's coercion
(whose `isinstance(value, Decimal)` branch is dead after `json.loads`)
passes it through as the string `"42"`, not the number 42, so the
round-trip of a numeric scalar is not byte-identical. -/
theorem decimal_scalar_round_trip_yields_string :
    jsonRoundTrip (.dec 42) = .str "42" ∧
    coerceField (jsonRoundTrip (.dec 42)) = .ok (.str "42") ∧
    isNumericPy (.str "42") = false ∧
    isNumericPy (.dec 42) = true :=
  ⟨rfl, rfl, rfl, rfl⟩

/-! ## C4: the pipeline key substitutions -/

theorem isPrefixOf_append_self (p l : List Char) : p.isPrefixOf (p ++ l) = true :=
  List.isPrefixOf_iff_prefix.mpr (List.prefix_append p l)

theorem pyReplace_leading (a : Char) (as rep rest : List Char) :
    pyReplace (a :: as) rep ((a :: as) ++ rest) = rep ++ pyReplace (a :: as) rep rest := by
  have hpre := isPrefixOf_append_self (a :: as) rest
  rw [pyReplace.eq_def]
  simp only [List.cons_append] at hpre ⊢
  simp only [hpre, if_true, List.length_cons, List.drop_succ_cons]
  rw [List.drop_left as rest]

theorem pyReplace_no_occur (p rep : List Char) :
    ∀ s, subOccurs p s = false → pyReplace p rep s = s := by
  intro s
  induction s with
  | nil =>
      intro _
      cases p <;> simp [pyReplace.eq_def]
  | cons c cs ih =>
      intro h
      rw [subOccurs] at h
      rcases Bool.or_eq_false_iff.mp h with ⟨h1, h2⟩
      cases p with
      | nil => simp [List.isPrefixOf] at h1
      | cons a as =>
          rw [pyReplace.eq_def]
          simp only [h1, Bool.false_eq_true, if_false]
          rw [ih h2]

/-- C4: for every staging key of the canonical shape (the `extracted/`
marker leads and occurs nowhere in the remainder, which also does not
contain the `transformed/` marker — true of every key the Staging Writer
emits), the Transformer's output key swaps the leading `extracted/` for
`transformed/` keeping the suffix, and the Loader's archive key applies the
same substitution of `transformed/` by `archived/` to the transformed
key. -/
theorem stage_key_substitution (sfx : String)
    (h1 : subOccurs "extracted/".data sfx.data = false)
    (h2 : subOccurs "transformed/".data sfx.data = false) :
    transformedKeyOf ("extracted/" ++ sfx) = "transformed/" ++ sfx ∧
    archiveKeyOf ("transformed/" ++ sfx) = "archived/" ++ sfx ∧
    archiveKeyOf (transformedKeyOf ("extracted/" ++ sfx)) = "archived/" ++ sfx := by
  have e1 : transformedKeyOf ("extracted/" ++ sfx) = "transformed/" ++ sfx := by
    show String.mk (pyReplace "extracted/".data "transformed/".data
      ("extracted/".data ++ sfx.data)) = "transformed/" ++ sfx
    rw [show ("extracted/".data : List Char) = 'e' :: "xtracted/".data from rfl]
    rw [pyReplace_leading]
    rw [show ('e' :: "xtracted/".data : List Char) = "extracted/".data from rfl]
    rw [pyReplace_no_occur _ _ _ h1]
    rfl
  have e2 : archiveKeyOf ("transformed/" ++ sfx) = "archived/" ++ sfx := by
    show String.mk (pyReplace "transformed/".data "archived/".data
      ("transformed/".data ++ sfx.data)) = "archived/" ++ sfx
    rw [show ("transformed/".data : List Char) = 't' :: "ransformed/".data from rfl]
    rw [pyReplace_leading]
    rw [show ('t' :: "ransformed/".data : List Char) = "transformed/".data from rfl]
    rw [pyReplace_no_occur _ _ _ h2]
    rfl
  exact ⟨e1, e2, by rw [e1, e2]⟩

/-- Witness for C4 at a canonical staging key suffix. -/
theorem stage_key_substitution_witness :
    transformedKeyOf ("extracted/" ++ "2024/01/01/data_2024-01-01T00:00:00.json") =
      "transformed/" ++ "2024/01/01/data_2024-01-01T00:00:00.json" ∧
    archiveKeyOf ("transformed/" ++ "2024/01/01/data_2024-01-01T00:00:00.json") =
      "archived/" ++ "2024/01/01/data_2024-01-01T00:00:00.json" ∧
    archiveKeyOf (transformedKeyOf ("extracted/" ++ "2024/01/01/data_2024-01-01T00:00:00.json")) =
      "archived/" ++ "2024/01/01/data_2024-01-01T00:00:00.json" :=
  stage_key_substitution "2024/01/01/data_2024-01-01T00:00:00.json" (by decide) (by decide)

/-! ## C7: broadcast fan-out is independent per recipient -/

theorem broadcastGo_delivers (postOk delOk : String → Bool) :
    ∀ (ts : List Conn), ∀ (tbl : List Conn) (c : Conn), c ∈ ts →
      postOk c.connection_id = true →
      c.connection_id ∈ (broadcastGo postOk delOk ts tbl).1 := by
  intro ts
  induction ts with
  | nil => intro tbl c hc; simp at hc
  | cons d ds ih =>
      intro tbl c hc hp
      rcases List.mem_cons.mp hc with rfl | hmem
      · simp [broadcastGo, hp]
      · by_cases hd : postOk d.connection_id = true
        · simp only [broadcastGo, hd, if_true]
          exact List.mem_cons_of_mem _ (ih tbl c hmem hp)
        · by_cases hdel : delOk d.connection_id = true
          · simp only [broadcastGo, hd, Bool.false_eq_true, if_false, hdel, if_true]
            exact ih _ c hmem hp
          · simp only [broadcastGo, hd, hdel, Bool.false_eq_true, if_false]
            exact ih _ c hmem hp

theorem broadcastGo_final_subset (postOk delOk : String → Bool) :
    ∀ (ts tbl : List Conn), (broadcastGo postOk delOk ts tbl).2 ⊆ tbl := by
  intro ts
  induction ts with
  | nil => intro tbl; simp [broadcastGo]
  | cons d ds ih =>
      intro tbl
      by_cases hd : postOk d.connection_id = true
      · simp only [broadcastGo, hd, if_true]
        exact ih tbl
      · by_cases hdel : delOk d.connection_id = true
        · simp only [broadcastGo, hd, Bool.false_eq_true, if_false, hdel, if_true]
          exact (ih _).trans (List.filter_sublist _).subset
        · simp only [broadcastGo, hd, hdel, Bool.false_eq_true, if_false]
          exact ih tbl

theorem broadcastGo_removed (postOk delOk : String → Bool) :
    ∀ (ts : List Conn), ∀ (tbl : List Conn) (c : Conn), c ∈ ts →
      postOk c.connection_id = false → delOk c.connection_id = true →
      c.connection_id ∉
        ((broadcastGo postOk delOk ts tbl).2.map (fun d => d.connection_id)) := by
  intro ts
  induction ts with
  | nil => intro tbl c hc; simp at hc
  | cons d ds ih =>
      intro tbl c hc hp hdel
      rcases List.mem_cons.mp hc with rfl | hmem
      · simp only [broadcastGo, hp, Bool.false_eq_true, if_false, hdel, if_true]
        intro hmem2
        rcases List.mem_map.mp hmem2 with ⟨d2, hd2, hcid⟩
        have hsub := broadcastGo_final_subset postOk delOk ds
          (tbl.filter (fun d3 => d3.connection_id ≠ c.connection_id)) hd2
        have := List.of_mem_filter hsub
        simp only [decide_eq_true_eq] at this
        exact this hcid
      · by_cases hd : postOk d.connection_id = true
        · simp only [broadcastGo, hd, if_true]
          intro hmem2
          exact ih tbl c hmem hp hdel hmem2
        · by_cases hddel : delOk d.connection_id = true
          · simp only [broadcastGo, hd, Bool.false_eq_true, if_false, hddel, if_true]
            exact ih _ c hmem hp hdel
          · simp only [broadcastGo, hd, hddel, Bool.false_eq_true, if_false]
            exact ih tbl c hmem hp hdel

theorem broadcastGo_keeps (postOk delOk : String → Bool) :
    ∀ (ts : List Conn), ∀ (tbl : List Conn) (c : Conn), c ∈ tbl →
      delOk c.connection_id = false →
      c ∈ (broadcastGo postOk delOk ts tbl).2 := by
  intro ts
  induction ts with
  | nil => intro tbl c hc _; simpa [broadcastGo] using hc
  | cons d ds ih =>
      intro tbl c hc hdel
      by_cases hd : postOk d.connection_id = true
      · simp only [broadcastGo, hd, if_true]
        exact ih tbl c hc hdel
      · by_cases hddel : delOk d.connection_id = true
        · simp only [broadcastGo, hd, Bool.false_eq_true, if_false, hddel, if_true]
          refine ih _ c (List.mem_filter.mpr ⟨hc, ?_⟩) hdel
          simp only [decide_eq_true_eq]
          intro heq
          rw [heq] at hdel
          rw [hdel] at hddel
          exact Bool.false_ne_true hddel
        · simp only [broadcastGo, hd, hddel, Bool.false_eq_true, if_false]
          exact ih tbl c hc hdel

/-- C7: delivery of a broadcast is attempted independently for every
subscriber connection of the channel — every connection whose post succeeds
receives the payload no matter which other recipients fail; a connection
whose post fails and whose delete succeeds is gone from the table; a
connection whose delete fails stays (the failure is swallowed and the loop
continues); and in the concrete 3-connection scenario with exactly one
failing delivery, the other two are delivered and two connections
remain. -/
theorem broadcast_independent_per_recipient (postOk delOk : String → Bool)
    (table : List Conn) (room : String) :
    (∀ c : Conn, c ∈ broadcastTargets table room → postOk c.connection_id = true →
      c.connection_id ∈ (broadcastMessage postOk delOk table room).1) ∧
    (∀ c : Conn, c ∈ broadcastTargets table room → postOk c.connection_id = false →
      delOk c.connection_id = true →
      c.connection_id ∉
        ((broadcastMessage postOk delOk table room).2.map (fun d => d.connection_id))) ∧
    (∀ c : Conn, c ∈ table → delOk c.connection_id = false →
      c ∈ (broadcastMessage postOk delOk table room).2) ∧
    broadcastMessage (fun i => !(i = "B")) (fun _ => true)
      [⟨"A", "r"⟩, ⟨"B", "r"⟩, ⟨"C", "r"⟩] "r" = (["A", "C"], [⟨"A", "r"⟩, ⟨"C", "r"⟩]) := by
  refine ⟨?_, ?_, ?_, ?_⟩
  · intro c hc hp
    exact broadcastGo_delivers postOk delOk (broadcastTargets table room) table c hc hp
  · intro c hc hp hdel
    exact broadcastGo_removed postOk delOk (broadcastTargets table room) table c hc hp hdel
  · intro c hc hdel
    exact broadcastGo_keeps postOk delOk (broadcastTargets table room) table c hc hdel
  · decide

/-- Witness for C7: in the concrete scenario, connection `A` (whose post
succeeds) is among the delivered recipients. -/
theorem broadcast_independent_per_recipient_witness :
    ("A" : String) ∈ (broadcastMessage (fun i => !(i = "B")) (fun _ => true)
      [⟨"A", "r"⟩, ⟨"B", "r"⟩, ⟨"C", "r"⟩] "r").1 :=
  (broadcast_independent_per_recipient (fun i => !(i = "B")) (fun _ => true)
    [⟨"A", "r"⟩, ⟨"B", "r"⟩, ⟨"C", "r"⟩] "r").1 ⟨"A", "r"⟩ (by decide) (by decide)

/-! ## Dict lookup helper lemmas -/

theorem hasKey_eq_isSome (kvs : List (String × PyVal)) (k : String) :
    hasKey kvs k = (dictLookup kvs k).isSome := by
  induction kvs with
  | nil => rfl
  | cons p ps ih =>
      by_cases h : p.1 = k
      · simp [hasKey, dictLookup, List.any_cons, List.find?_cons, h]
      · simp only [hasKey, dictLookup, List.any_cons, List.find?_cons, h,
          decide_False, Bool.false_or, if_false] at ih ⊢
        simpa [h] using ih

theorem hasKey_true_of_lookup {kvs : List (String × PyVal)} {k : String} {v : PyVal}
    (h : dictLookup kvs k = some v) : hasKey kvs k = true := by
  rw [hasKey_eq_isSome, h]
  rfl

theorem hasKey_false_of_lookup_none {kvs : List (String × PyVal)} {k : String}
    (h : dictLookup kvs k = Option.none) : hasKey kvs k = false := by
  rw [hasKey_eq_isSome, h]
  rfl

/-! ## C9: the loader accepts both event shapes -/

/-- C9: an event carrying the transformed-stage key directly and an event
carrying it one level under the `Payload` wrapper produce identical loader
behaviour over any blob store; an event carrying the key in neither shape
makes the invocation fail with an error propagated to the caller. -/
theorem loader_accepts_both_event_shapes (store : String → Option (List PyVal))
    (e1 e2 : List (String × PyVal)) (v : PyVal)
    (h1 : dictLookup e1 "transformedKey" = some v)
    (h2 : dictLookup e2 "transformedKey" = Option.none)
    (h3 : ∃ p, dictLookup e2 "Payload" = some (.dict p) ∧
      dictLookup p "transformedKey" = some v) :
    loadHandler store e1 = loadHandler store e2 ∧
    (∀ e : List (String × PyVal), dictLookup e "transformedKey" = Option.none →
      (∀ p, dictLookup e "Payload" = some (.dict p) →
        dictLookup p "transformedKey" = Option.none) →
      ∃ msg, loadHandler store e = .error msg) := by
  constructor
  · obtain ⟨p, hp, hpk⟩ := h3
    have hhk : hasKey p "transformedKey" = true := hasKey_true_of_lookup hpk
    simp only [loadHandler, getTransformedKey, h1, h2, hp, pyContains, hhk, pyGetItem, hpk]
  · intro e he hpay
    simp only [loadHandler, getTransformedKey, he]
    cases hL : dictLookup e "Payload" with
    | none => exact ⟨_, rfl⟩
    | some p =>
        cases p with
        | dict kvs =>
            have hk : hasKey kvs "transformedKey" = false :=
              hasKey_false_of_lookup_none (hpay kvs hL)
            simp only [pyContains, hk]
            exact ⟨_, rfl⟩
        | str s =>
            simp only [pyContains]
            cases hb : subOccurs "transformedKey".data s.data
            · exact ⟨_, rfl⟩
            · simp only [pyGetItem]
              exact ⟨_, rfl⟩
        | list xs =>
            simp only [pyContains]
            cases hb : xs.any (fun w => match w with | .str s => s = "transformedKey" | _ => false)
            · exact ⟨_, rfl⟩
            · simp only [pyGetItem]
              exact ⟨_, rfl⟩
        | none => exact ⟨_, rfl⟩
        | bool b => exact ⟨_, rfl⟩
        | int n => exact ⟨_, rfl⟩
        | float q => exact ⟨_, rfl⟩
        | dec q => exact ⟨_, rfl⟩

/-- Witness for C9: a direct-shaped and a `Payload`-wrapped event over an
empty store, both carrying the key `"k"`. -/
theorem loader_accepts_both_event_shapes_witness :
    loadHandler (fun _ => Option.none) [("transformedKey", .str "k")] =
      loadHandler (fun _ => Option.none)
        [("Payload", .dict [("transformedKey", .str "k")])] ∧
    (∀ e : List (String × PyVal), dictLookup e "transformedKey" = Option.none →
      (∀ p, dictLookup e "Payload" = some (.dict p) →
        dictLookup p "transformedKey" = Option.none) →
      ∃ msg, loadHandler (fun _ => Option.none) e = .error msg) :=
  loader_accepts_both_event_shapes (fun _ => Option.none)
    [("transformedKey", .str "k")] [("Payload", .dict [("transformedKey", .str "k")])]
    (.str "k") rfl rfl ⟨[("transformedKey", .str "k")], rfl, rfl⟩

/-! ## C10: transformer output always passes the loader presence checks -/

theorem hasKey_jsonRoundTripKVs (l : List (String × PyVal)) (k : String) :
    hasKey (jsonRoundTripKVs l) k = hasKey l k := by
  induction l with
  | nil => rfl
  | cons p ps ih =>
      cases p with
      | mk k0 v =>
          simp only [jsonRoundTripKVs, hasKey, List.any_cons] at ih ⊢
          rw [ih]

/-- C10: every record the Transformer emits carries an `id` key (defaulting
to the record's `partition_key` value, or to `"unknown"`, when the source
record has no identifier) and a `timestamp` key (defaulting to the current
time when the source has none); even after the blob's JSON round-trip, the
Loader's `id`/`timestamp` presence checks therefore always pass on
Transformer output, so they can only reject records from elsewhere. -/
theorem transformer_output_passes_loader_checks (now : String) (record out : PyVal)
    (h : transformRecord now record = .ok out) :
    pyContains "id" (jsonRoundTrip out) = .ok true ∧
    pyContains "timestamp" (jsonRoundTrip out) = .ok true ∧
    (∀ kvs rd, record = .dict kvs → coerceRecordDict kvs = .ok rd →
      ((dictLookup rd "id" = Option.none → dictLookup rd "partition_key" = Option.none →
          dictLookup (mkTransformed now rd) "id" = some (.str "unknown")) ∧
       (∀ w, dictLookup rd "id" = Option.none → dictLookup rd "partition_key" = some w →
          dictLookup (mkTransformed now rd) "id" = some w) ∧
       (dictLookup rd "timestamp" = Option.none →
          dictLookup (mkTransformed now rd) "timestamp" = some (.str now)))) := by
  cases record with
  | dict kvs0 =>
      cases hrd : coerceRecordDict kvs0 with
      | error e => rw [transformRecord, hrd] at h; exact absurd h (by simp)
      | ok rd0 =>
          rw [transformRecord, hrd] at h
          simp only [Except.ok.injEq] at h
          subst h
          refine ⟨?_, ?_, ?_⟩
          · simp only [jsonRoundTrip, pyContains, Except.ok.injEq]
            rw [hasKey_jsonRoundTripKVs]
            simp [mkTransformed, hasKey]
          · simp only [jsonRoundTrip, pyContains, Except.ok.injEq]
            rw [hasKey_jsonRoundTripKVs]
            simp [mkTransformed, hasKey]
          · intro kvs rd hkvs hrd2
            injection hkvs with hkvs
            subst hkvs
            rw [hrd] at hrd2
            injection hrd2 with hrd2
            subst hrd2
            refine ⟨?_, ?_, ?_⟩
            · intro hid hpk
              simp only [dictLookup] at hid hpk
              simp [mkTransformed, dictLookup, List.find?_cons, dictGet, hid, hpk]
            · intro w hid hpk
              simp only [dictLookup] at hid hpk
              simp [mkTransformed, dictLookup, List.find?_cons, dictGet, hid, hpk]
            · intro hts
              simp only [dictLookup] at hts
              simp [mkTransformed, dictLookup, List.find?_cons, dictGet, hts]
  | none => exact absurd h (by simp [transformRecord])
  | bool b => exact absurd h (by simp [transformRecord])
  | int n => exact absurd h (by simp [transformRecord])
  | float q => exact absurd h (by simp [transformRecord])
  | dec q => exact absurd h (by simp [transformRecord])
  | str s => exact absurd h (by simp [transformRecord])
  | list xs => exact absurd h (by simp [transformRecord])

/-- Witness for C10 at the empty source record: the transformer emits
`id = "unknown"` and `timestamp = now`, and both loader checks pass. -/
theorem transformer_output_passes_loader_checks_witness :
    pyContains "id" (jsonRoundTrip (.dict (mkTransformed "T" []))) = .ok true ∧
    pyContains "timestamp" (jsonRoundTrip (.dict (mkTransformed "T" []))) = .ok true ∧
    (∀ kvs rd, (PyVal.dict [] : PyVal) = .dict kvs → coerceRecordDict kvs = .ok rd →
      ((dictLookup rd "id" = Option.none → dictLookup rd "partition_key" = Option.none →
          dictLookup (mkTransformed "T" rd) "id" = some (.str "unknown")) ∧
       (∀ w, dictLookup rd "id" = Option.none → dictLookup rd "partition_key" = some w →
          dictLookup (mkTransformed "T" rd) "id" = some w) ∧
       (dictLookup rd "timestamp" = Option.none →
          dictLookup (mkTransformed "T" rd) "timestamp" = some (.str "T")))) :=
  transformer_output_passes_loader_checks "T" (.dict []) (.dict (mkTransformed "T" [])) rfl

/-! ## Characterization of the loader conversion loop -/

theorem dictLookup_eq_none_of_not_mem {kvs : List (String × PyVal)} {k : String}
    (h : k ∉ kvs.map Prod.fst) : dictLookup kvs k = Option.none := by
  rw [dictLookup]
  cases hf : kvs.find? (fun p => p.1 = k) with
  | none => rfl
  | some p =>
      have hp : p.1 = k := by simpa using List.find?_some hf
      have hm : p ∈ kvs := List.mem_of_find?_eq_some hf
      exact absurd (hp ▸ List.mem_map_of_mem Prod.fst hm) h

theorem convertItem_lookup_none :
    ∀ (kvs item : List (String × PyVal)) (k : String),
      convertItem kvs = .ok item → dictLookup kvs k = Option.none →
      dictLookup item k = Option.none := by
  intro kvs
  induction kvs with
  | nil =>
      intro item k h _
      simp only [convertItem, Except.ok.injEq] at h
      subst h
      rfl
  | cons p ps ih =>
      intro item k h hlk
      obtain ⟨k0, v0⟩ := p
      by_cases hk : k0 = k
      · simp [dictLookup, List.find?_cons, hk] at hlk
      · have hrest : dictLookup ps k = Option.none := by
          simpa [dictLookup, List.find?_cons, hk] using hlk
        rw [convertItem] at h
        cases hcf : convertField v0 with
        | error e => rw [hcf] at h; exact absurd h (by simp)
        | ok r =>
            rw [hcf] at h
            cases r with
            | none => exact ih item k h hrest
            | some w =>
                cases hrec : convertItem ps with
                | error e2 => rw [hrec] at h; exact absurd h (by simp [Except.map])
                | ok tail =>
                    rw [hrec] at h
                    simp only [Except.map, Except.ok.injEq] at h
                    subst h
                    simpa [dictLookup, List.find?_cons, hk] using ih tail k hrec hrest

theorem convertItem_lookup :
    ∀ (kvs item : List (String × PyVal)) (k : String) (v : PyVal),
      (kvs.map Prod.fst).Nodup → convertItem kvs = .ok item →
      dictLookup kvs k = some v →
      ∃ r : Option PyVal, convertField v = .ok r ∧ dictLookup item k = r := by
  intro kvs
  induction kvs with
  | nil => intro item k v _ _ hlk; simp [dictLookup] at hlk
  | cons p ps ih =>
      intro item k v hnd h hlk
      obtain ⟨k0, v0⟩ := p
      rw [List.map_cons, List.nodup_cons] at hnd
      obtain ⟨hk0, hnd⟩ := hnd
      rw [convertItem] at h
      by_cases hk : k0 = k
      · have hv : v0 = v := by simpa [dictLookup, List.find?_cons, hk] using hlk
        subst hv
        subst hk
        cases hcf : convertField v0 with
        | error e => rw [hcf] at h; exact absurd h (by simp)
        | ok r =>
            rw [hcf] at h
            cases r with
            | none =>
                refine ⟨Option.none, rfl, ?_⟩
                exact convertItem_lookup_none ps item k0 h
                  (dictLookup_eq_none_of_not_mem hk0)
            | some w =>
                cases hrec : convertItem ps with
                | error e2 => rw [hrec] at h; exact absurd h (by simp [Except.map])
                | ok tail =>
                    rw [hrec] at h
                    simp only [Except.map, Except.ok.injEq] at h
                    subst h
                    exact ⟨some w, rfl, by simp [dictLookup, List.find?_cons]⟩
      · have hrest : dictLookup ps k = some v := by
          simpa [dictLookup, List.find?_cons, hk] using hlk
        cases hcf : convertField v0 with
        | error e => rw [hcf] at h; exact absurd h (by simp)
        | ok r =>
            rw [hcf] at h
            cases r with
            | none => exact ih item k v hnd h hrest
            | some w =>
                cases hrec : convertItem ps with
                | error e2 => rw [hrec] at h; exact absurd h (by simp [Except.map])
                | ok tail =>
                    rw [hrec] at h
                    simp only [Except.map, Except.ok.injEq] at h
                    subst h
                    obtain ⟨r, hr1, hr2⟩ := ih tail k v hnd hrec hrest
                    exact ⟨r, hr1, by simpa [dictLookup, List.find?_cons, hk] using hr2⟩

theorem loadRecord_ok_inv {kvs item : List (String × PyVal)}
    (h : loadRecord (.dict kvs) = .ok item) :
    convertItem kvs = .ok item ∧ putItemOk item = true := by
  rw [loadRecord] at h
  simp only [pyContains] at h
  cases hid : hasKey kvs "id" with
  | false => simp only [hid] at h; exact absurd h (by simp)
  | true =>
      simp only [hid] at h
      cases hts : hasKey kvs "timestamp" with
      | false => simp only [hts] at h; exact absurd h (by simp)
      | true =>
          simp only [hts] at h
          cases hconv : convertItem kvs with
          | error e => simp only [hconv] at h; exact absurd h (by simp)
          | ok it2 =>
              simp only [hconv] at h
              cases hput : putItemOk it2 with
              | false =>
                  simp only [hput, Bool.false_eq_true, if_false] at h
                  exact absurd h (by simp)
              | true =>
                  simp only [hput, if_true, Except.ok.injEq] at h
                  subst h
                  exact ⟨rfl, hput⟩

/-! ## C2: records without a usable id/timestamp are rejected and counted -/

theorem putItemOk_false_of_id_none {item : List (String × PyVal)}
    (h : dictLookup item "id" = Option.none) : putItemOk item = false := by
  cases hlt : dictLookup item "timestamp" with
  | none => simp [putItemOk, h, hlt]
  | some w => cases w <;> simp [putItemOk, h, hlt]

theorem putItemOk_false_of_id_empty {item : List (String × PyVal)}
    (h : dictLookup item "id" = some (.str "")) : putItemOk item = false := by
  cases hlt : dictLookup item "timestamp" with
  | none => simp [putItemOk, h, hlt]
  | some w => cases w <;> simp [putItemOk, h, hlt]

theorem putItemOk_false_of_ts_none {item : List (String × PyVal)}
    (h : dictLookup item "timestamp" = Option.none) : putItemOk item = false := by
  cases hli : dictLookup item "id" with
  | none => simp [putItemOk, h, hli]
  | some w => cases w <;> simp [putItemOk, h, hli]

theorem putItemOk_false_of_ts_empty {item : List (String × PyVal)}
    (h : dictLookup item "timestamp" = some (.str "")) : putItemOk item = false := by
  cases hli : dictLookup item "id" with
  | none => simp [putItemOk, h, hli]
  | some w => cases w <;> simp [putItemOk, h, hli]

/-- The record lacks a non-empty value for the key: the key is absent, or
holds the empty string, or holds `None`. -/
def lacksNonempty (kvs : List (String × PyVal)) (k : String) : Prop :=
  dictLookup kvs k = Option.none ∨ dictLookup kvs k = some (.str "") ∨
    dictLookup kvs k = some PyVal.none

theorem loadRecord_rejects (kvs : List (String × PyVal))
    (hnd : (kvs.map Prod.fst).Nodup)
    (h : lacksNonempty kvs "id" ∨ lacksNonempty kvs "timestamp") :
    ∃ e, loadRecord (.dict kvs) = .error e := by
  cases hid : hasKey kvs "id" with
  | false =>
      exact ⟨"Record missing id field", by rw [loadRecord]; simp [pyContains, hid]⟩
  | true =>
      cases hts : hasKey kvs "timestamp" with
      | false =>
          exact ⟨"Record missing timestamp field", by
            rw [loadRecord]; simp [pyContains, hid, hts]⟩
      | true =>
          cases hconv : convertItem kvs with
          | error e => exact ⟨e, by rw [loadRecord]; simp [pyContains, hid, hts, hconv]⟩
          | ok item =>
              have hput : putItemOk item = false := by
                rcases h with hcase | hcase
                · rcases hcase with hl | hl | hl
                  · rw [hasKey_eq_isSome, hl] at hid
                    exact absurd hid (by simp)
                  · obtain ⟨r, hr1, hr2⟩ := convertItem_lookup kvs item "id" _ hnd hconv hl
                    have : r = some (.str "") := by
                      have : convertField (.str "") = .ok (some (.str "")) := rfl
                      rw [this] at hr1
                      exact (Except.ok.injEq _ _).mp hr1.symm
                    rw [this] at hr2
                    exact putItemOk_false_of_id_empty hr2
                  · obtain ⟨r, hr1, hr2⟩ := convertItem_lookup kvs item "id" _ hnd hconv hl
                    have : r = Option.none := by
                      have : convertField PyVal.none = .ok Option.none := rfl
                      rw [this] at hr1
                      exact (Except.ok.injEq _ _).mp hr1.symm
                    rw [this] at hr2
                    exact putItemOk_false_of_id_none hr2
                · rcases hcase with hl | hl | hl
                  · rw [hasKey_eq_isSome, hl] at hts
                    exact absurd hts (by simp)
                  · obtain ⟨r, hr1, hr2⟩ := convertItem_lookup kvs item "timestamp" _ hnd hconv hl
                    have : r = some (.str "") := by
                      have : convertField (.str "") = .ok (some (.str "")) := rfl
                      rw [this] at hr1
                      exact (Except.ok.injEq _ _).mp hr1.symm
                    rw [this] at hr2
                    exact putItemOk_false_of_ts_empty hr2
                  · obtain ⟨r, hr1, hr2⟩ := convertItem_lookup kvs item "timestamp" _ hnd hconv hl
                    have : r = Option.none := by
                      have : convertField PyVal.none = .ok Option.none := rfl
                      rw [this] at hr1
                      exact (Except.ok.injEq _ _).mp hr1.symm
                    rw [this] at hr2
                    exact putItemOk_false_of_ts_none hr2
              exact ⟨"ClientError: ValidationException on put_item", by
                rw [loadRecord]
                simp [pyContains, hid, hts, hconv, hput]⟩

/-- C2: a batch record lacking a non-empty `id` or a non-empty `timestamp`
(absent key, empty string, or null — the presence check catches the absent
key, and the DynamoDB key schema `id : S`/`timestamp : S` rejects the empty
or missing key attribute at `put_item`) is rejected and counted: its error
message lands in the error list at its position, `recordsLoaded` is the sum
over the other records alone, the overall error count grows by exactly one,
subsequent records are still processed, and the handler still returns
status 200. -/
theorem loader_counts_missing_required_as_error (kvs : List (String × PyVal))
    (pre post : List PyVal) (hnd : (kvs.map Prod.fst).Nodup)
    (h : lacksNonempty kvs "id" ∨ lacksNonempty kvs "timestamp") :
    (∃ e, loadRecord (.dict kvs) = .error e ∧
      (loadBatchAux (pre ++ .dict kvs :: post) 0 []).2 =
        (loadBatchAux pre 0 []).2 ++ e :: (loadBatchAux post 0 []).2) ∧
    (loadResponse (pre ++ .dict kvs :: post)).recordsLoaded =
      (loadBatchAux pre 0 []).1 + (loadBatchAux post 0 []).1 ∧
    (loadResponse (pre ++ .dict kvs :: post)).errors =
      (loadBatchAux pre 0 []).2.length + 1 + (loadBatchAux post 0 []).2.length ∧
    (loadResponse (pre ++ .dict kvs :: post)).statusCode = 200 := by
  obtain ⟨e, he⟩ := loadRecord_rejects kvs hnd h
  have hbatch : loadBatchAux (pre ++ .dict kvs :: post) 0 [] =
      ((loadBatchAux pre 0 []).1 + (loadBatchAux post 0 []).1,
        (loadBatchAux pre 0 []).2 ++ e :: (loadBatchAux post 0 []).2) := by
    rw [loadBatchAux_append pre (.dict kvs :: post) 0 []]
    simp only [loadBatchAux, he]
    rw [Prod.ext_iff]
    constructor
    · rw [loadBatchAux_fst post]
    · rw [loadBatchAux_snd post]
      simp
  have hne : (pre ++ .dict kvs :: post).isEmpty = false := by
    cases pre <;> rfl
  refine ⟨⟨e, he, ?_⟩, ?_, ?_, ?_⟩
  · rw [hbatch]
  · simp only [loadResponse, hne, Bool.false_eq_true, if_false, hbatch]
  · simp only [loadResponse, hne, Bool.false_eq_true, if_false, hbatch]
    simp only [List.length_append, List.length_cons]
    omega
  · simp only [loadResponse, hne, Bool.false_eq_true, if_false]

/-- Witness for C2: the single-record batch whose record has a timestamp
but no `id` key produces 0 loaded, 1 error, status 200. -/
theorem loader_counts_missing_required_as_error_witness :
    (∃ e, loadRecord (.dict [("timestamp", .str "t")]) = .error e ∧
      (loadBatchAux ([] ++ .dict [("timestamp", .str "t")] :: []) 0 []).2 =
        (loadBatchAux [] 0 []).2 ++ e :: (loadBatchAux [] 0 []).2) ∧
    (loadResponse ([] ++ .dict [("timestamp", .str "t")] :: [])).recordsLoaded =
      (loadBatchAux [] 0 []).1 + (loadBatchAux [] 0 []).1 ∧
    (loadResponse ([] ++ .dict [("timestamp", .str "t")] :: [])).errors =
      (loadBatchAux [] 0 []).2.length + 1 + (loadBatchAux [] 0 []).2.length ∧
    (loadResponse ([] ++ .dict [("timestamp", .str "t")] :: [])).statusCode = 200 :=
  loader_counts_missing_required_as_error [("timestamp", .str "t")] [] []
    (by simp) (Or.inl (Or.inl rfl))

/-! ## C5: the destination-format coercion rules -/

theorem nestedConvert_lookup_none :
    ∀ (m m2 : List (String × PyVal)) (k : String),
      nestedConvert m = .ok m2 → dictLookup m k = Option.none →
      dictLookup m2 k = Option.none := by
  intro m
  induction m with
  | nil =>
      intro m2 k h _
      simp only [nestedConvert, Except.ok.injEq] at h
      subst h
      rfl
  | cons p ps ih =>
      intro m2 k h hlk
      obtain ⟨k0, v0⟩ := p
      by_cases hk : k0 = k
      · simp [dictLookup, List.find?_cons, hk] at hlk
      · have hrest : dictLookup ps k = Option.none := by
          simpa [dictLookup, List.find?_cons, hk] using hlk
        rw [nestedConvert] at h
        cases hcf : nestedField v0 with
        | error e => rw [hcf] at h; exact absurd h (by simp)
        | ok r =>
            rw [hcf] at h
            cases r with
            | none => exact ih m2 k h hrest
            | some w =>
                cases hrec : nestedConvert ps with
                | error e2 => rw [hrec] at h; exact absurd h (by simp [Except.map])
                | ok tail =>
                    rw [hrec] at h
                    simp only [Except.map, Except.ok.injEq] at h
                    subst h
                    simpa [dictLookup, List.find?_cons, hk] using ih tail k hrec hrest

theorem nestedConvert_lookup :
    ∀ (m m2 : List (String × PyVal)) (k : String) (v : PyVal),
      (m.map Prod.fst).Nodup → nestedConvert m = .ok m2 →
      dictLookup m k = some v →
      ∃ r : Option PyVal, nestedField v = .ok r ∧ dictLookup m2 k = r := by
  intro m
  induction m with
  | nil => intro m2 k v _ _ hlk; simp [dictLookup] at hlk
  | cons p ps ih =>
      intro m2 k v hnd h hlk
      obtain ⟨k0, v0⟩ := p
      rw [List.map_cons, List.nodup_cons] at hnd
      obtain ⟨hk0, hnd⟩ := hnd
      rw [nestedConvert] at h
      by_cases hk : k0 = k
      · have hv : v0 = v := by simpa [dictLookup, List.find?_cons, hk] using hlk
        subst hv
        subst hk
        cases hcf : nestedField v0 with
        | error e => rw [hcf] at h; exact absurd h (by simp)
        | ok r =>
            rw [hcf] at h
            cases r with
            | none =>
                refine ⟨Option.none, rfl, ?_⟩
                exact nestedConvert_lookup_none ps m2 k0 h
                  (dictLookup_eq_none_of_not_mem hk0)
            | some w =>
                cases hrec : nestedConvert ps with
                | error e2 => rw [hrec] at h; exact absurd h (by simp [Except.map])
                | ok tail =>
                    rw [hrec] at h
                    simp only [Except.map, Except.ok.injEq] at h
                    subst h
                    exact ⟨some w, rfl, by simp [dictLookup, List.find?_cons]⟩
      · have hrest : dictLookup ps k = some v := by
          simpa [dictLookup, List.find?_cons, hk] using hlk
        cases hcf : nestedField v0 with
        | error e => rw [hcf] at h; exact absurd h (by simp)
        | ok r =>
            rw [hcf] at h
            cases r with
            | none => exact ih m2 k v hnd h hrest
            | some w =>
                cases hrec : nestedConvert ps with
                | error e2 => rw [hrec] at h; exact absurd h (by simp [Except.map])
                | ok tail =>
                    rw [hrec] at h
                    simp only [Except.map, Except.ok.injEq] at h
                    subst h
                    obtain ⟨r, hr1, hr2⟩ := ih tail k v hnd hrec hrest
                    exact ⟨r, hr1, by simpa [dictLookup, List.find?_cons, hk] using hr2⟩

theorem nestedField_facts {m2 : List (String × PyVal)} {k2 : String} {v2 : PyVal}
    {r2 : Option PyVal} (hs1 : nestedField v2 = .ok r2) (hs2 : dictLookup m2 k2 = r2) :
    (v2 = PyVal.none → dictLookup m2 k2 = Option.none) ∧
    (∀ n : Int, v2 = .int n → dictLookup m2 k2 = some (.dec (n : ℚ))) ∧
    (∀ q : ℚ, v2 = .float q → dictLookup m2 k2 = some (.dec q)) ∧
    (∀ b : Bool, v2 = .bool b → False) ∧
    (∀ s, v2 = .str s → dictLookup m2 k2 = some (.str s)) ∧
    (∀ xs, v2 = .list xs → dictLookup m2 k2 = some (.str (pyStr (.list xs)))) ∧
    (∀ mm, v2 = .dict mm → dictLookup m2 k2 = some (.str (pyStr (.dict mm)))) := by
  refine ⟨?_, ?_, ?_, ?_, ?_, ?_, ?_⟩
  · intro hv; subst hv
    rw [show nestedField PyVal.none = .ok Option.none from rfl] at hs1
    injection hs1 with h2
    rw [← h2] at hs2
    exact hs2
  · intro n hv; subst hv
    rw [show nestedField (.int n) = .ok (some (.dec (n : ℚ))) from rfl] at hs1
    injection hs1 with h2
    rw [← h2] at hs2
    exact hs2
  · intro q hv; subst hv
    rw [show nestedField (.float q) = .ok (some (.dec q)) from rfl] at hs1
    injection hs1 with h2
    rw [← h2] at hs2
    exact hs2
  · intro b hv; subst hv
    exact Except.noConfusion hs1
  · intro s hv; subst hv
    rw [show nestedField (.str s) = .ok (some (.str s)) from rfl] at hs1
    injection hs1 with h2
    rw [← h2] at hs2
    exact hs2
  · intro xs hv; subst hv
    rw [show nestedField (.list xs) = .ok (some (.str (pyStr (.list xs)))) from rfl] at hs1
    injection hs1 with h2
    rw [← h2] at hs2
    exact hs2
  · intro mm hv; subst hv
    rw [show nestedField (.dict mm) = .ok (some (.str (pyStr (.dict mm)))) from rfl] at hs1
    injection hs1 with h2
    rw [← h2] at hs2
    exact hs2

/-- C5 (falsified as stated): the claim says null values inside lists are
dropped, but the loader stringifies every list element, so a null list
element is stored as the string `"None"` — the accepted record
`{"id": "a", "timestamp": "t", "tags": [null]}` keeps a one-element `tags`
list rather than an empty one. -/
theorem loader_list_null_not_dropped :
    loadRecord (.dict [("id", .str "a"), ("timestamp", .str "t"),
        ("tags", .list [PyVal.none])]) =
      .ok [("id", .str "a"), ("timestamp", .str "t"), ("tags", .list [.str "None"])] ∧
    (match dictLookup [("id", PyVal.str "a"), ("timestamp", PyVal.str "t"),
        ("tags", PyVal.list [PyVal.str "None"])] "tags" with
      | some (.list xs) => xs.length
      | _ => 0) = 1 :=
  ⟨rfl, rfl⟩

/-- C5 (amended): for every record the Loader accepts, each stored field is
the source field coerced as the code does it — nulls dropped at the top
level and inside nested maps (not inside lists); `int`/`float` values
become `Decimal` at the top level and inside nested maps; a boolean at the
top level or inside a nested map is impossible in an accepted record (it
falls into the numeric branch, where `Decimal(str(bool))` raises and the
whole record errors); strings stay strings; list values are stored with
every element stringified by `str()` (nulls becoming `"None"`, booleans
`"True"`/`"False"`); nested-map and nested-list leaves inside nested maps
are stringified. -/
theorem loader_field_coercion (kvs item : List (String × PyVal))
    (hnd : (kvs.map Prod.fst).Nodup)
    (hok : loadRecord (.dict kvs) = .ok item) :
    ∀ k v, dictLookup kvs k = some v →
      ((v = PyVal.none → dictLookup item k = Option.none) ∧
       (∀ n : Int, v = .int n → dictLookup item k = some (.dec (n : ℚ))) ∧
       (∀ q : ℚ, v = .float q → dictLookup item k = some (.dec q)) ∧
       (∀ b : Bool, v = .bool b → False) ∧
       (∀ s, v = .str s → dictLookup item k = some (.str s)) ∧
       (∀ xs, v = .list xs →
          dictLookup item k = some (.list (xs.map (fun x => PyVal.str (pyStr x))))) ∧
       (∀ m, v = .dict m → ∃ m2, nestedConvert m = .ok m2 ∧
          dictLookup item k = some (.dict m2) ∧
          ((m.map Prod.fst).Nodup → ∀ k2 v2, dictLookup m k2 = some v2 →
            ((v2 = PyVal.none → dictLookup m2 k2 = Option.none) ∧
             (∀ n : Int, v2 = .int n → dictLookup m2 k2 = some (.dec (n : ℚ))) ∧
             (∀ q : ℚ, v2 = .float q → dictLookup m2 k2 = some (.dec q)) ∧
             (∀ b : Bool, v2 = .bool b → False) ∧
             (∀ s, v2 = .str s → dictLookup m2 k2 = some (.str s)) ∧
             (∀ xs, v2 = .list xs → dictLookup m2 k2 = some (.str (pyStr (.list xs)))) ∧
             (∀ mm, v2 = .dict mm →
                dictLookup m2 k2 = some (.str (pyStr (.dict mm)))))))) := by
  obtain ⟨hconv, hput⟩ := loadRecord_ok_inv hok
  intro k v hlk
  obtain ⟨r, hr1, hr2⟩ := convertItem_lookup kvs item k v hnd hconv hlk
  refine ⟨?_, ?_, ?_, ?_, ?_, ?_, ?_⟩
  · intro hv; subst hv
    rw [show convertField PyVal.none = .ok Option.none from rfl] at hr1
    injection hr1 with h2
    rw [← h2] at hr2
    exact hr2
  · intro n hv; subst hv
    rw [show convertField (.int n) = .ok (some (.dec (n : ℚ))) from rfl] at hr1
    injection hr1 with h2
    rw [← h2] at hr2
    exact hr2
  · intro q hv; subst hv
    rw [show convertField (.float q) = .ok (some (.dec q)) from rfl] at hr1
    injection hr1 with h2
    rw [← h2] at hr2
    exact hr2
  · intro b hv; subst hv
    exact Except.noConfusion hr1
  · intro s hv; subst hv
    rw [show convertField (.str s) = .ok (some (.str (pyStr (.str s)))) from rfl] at hr1
    injection hr1 with h2
    rw [← h2] at hr2
    exact hr2
  · intro xs hv; subst hv
    rw [show convertField (.list xs) =
      .ok (some (.list (xs.map (fun x => PyVal.str (pyStr x))))) from rfl] at hr1
    injection hr1 with h2
    rw [← h2] at hr2
    exact hr2
  · intro m hv; subst hv
    have hcf : convertField (.dict m) = (nestedConvert m).map (fun m2 => some (.dict m2)) :=
      rfl
    rw [hcf] at hr1
    cases hnc : nestedConvert m with
    | error e => rw [hnc] at hr1; exact absurd hr1 (by simp [Except.map])
    | ok m2 =>
        rw [hnc] at hr1
        simp only [Except.map, Except.ok.injEq] at hr1
        rw [← hr1] at hr2
        refine ⟨m2, rfl, hr2, ?_⟩
        intro hnd2 k2 v2 hlk2
        obtain ⟨r2, hs1, hs2⟩ := nestedConvert_lookup m m2 k2 v2 hnd2 hnc hlk2
        exact nestedField_facts hs1 hs2

/-- Witness for C5 at the accepted record `{"id": "a", "timestamp": "t"}`
and its `id` field. -/
theorem loader_field_coercion_witness :
    ((PyVal.str "a" = PyVal.none →
        dictLookup [("id", PyVal.str "a"), ("timestamp", PyVal.str "t")] "id" =
          Option.none) ∧
     (∀ n : Int, PyVal.str "a" = .int n →
        dictLookup [("id", PyVal.str "a"), ("timestamp", PyVal.str "t")] "id" =
          some (.dec (n : ℚ))) ∧
     (∀ q : ℚ, PyVal.str "a" = .float q →
        dictLookup [("id", PyVal.str "a"), ("timestamp", PyVal.str "t")] "id" =
          some (.dec q)) ∧
     (∀ b : Bool, PyVal.str "a" = .bool b → False) ∧
     (∀ s, PyVal.str "a" = .str s →
        dictLookup [("id", PyVal.str "a"), ("timestamp", PyVal.str "t")] "id" =
          some (.str s)) ∧
     (∀ xs, PyVal.str "a" = .list xs →
        dictLookup [("id", PyVal.str "a"), ("timestamp", PyVal.str "t")] "id" =
          some (.list (xs.map (fun x => PyVal.str (pyStr x))))) ∧
     (∀ m, PyVal.str "a" = .dict m → ∃ m2, nestedConvert m = .ok m2 ∧
        dictLookup [("id", PyVal.str "a"), ("timestamp", PyVal.str "t")] "id" =
          some (.dict m2) ∧
        ((m.map Prod.fst).Nodup → ∀ k2 v2, dictLookup m k2 = some v2 →
          ((v2 = PyVal.none → dictLookup m2 k2 = Option.none) ∧
           (∀ n : Int, v2 = .int n → dictLookup m2 k2 = some (.dec (n : ℚ))) ∧
           (∀ q : ℚ, v2 = .float q → dictLookup m2 k2 = some (.dec q)) ∧
           (∀ b : Bool, v2 = .bool b → False) ∧
           (∀ s, v2 = .str s → dictLookup m2 k2 = some (.str s)) ∧
           (∀ xs, v2 = .list xs → dictLookup m2 k2 = some (.str (pyStr (.list xs)))) ∧
           (∀ mm, v2 = .dict mm →
              dictLookup m2 k2 = some (.str (pyStr (.dict mm)))))))) :=
  loader_field_coercion [("id", .str "a"), ("timestamp", .str "t")]
    [("id", .str "a"), ("timestamp", .str "t")] (by simp) rfl "id" (.str "a") rfl

/-! ## C6: the derived average field -/

theorem dictLookup_append_left {d l : List (String × PyVal)} {k : String} {w : PyVal}
    (h : dictLookup d k = some w) : dictLookup (d ++ l) k = some w := by
  induction d with
  | nil => simp [dictLookup] at h
  | cons p ps ih =>
      by_cases hp : p.1 = k
      · simpa [dictLookup, List.find?_cons, hp] using
          (by simpa [dictLookup, List.find?_cons, hp] using h : p.2 = w)
      · have h2 : dictLookup ps k = some w := by
          simpa [dictLookup, List.find?_cons, hp] using h
        simpa [dictLookup, List.find?_cons, hp] using ih h2

theorem dictLookup_append_right {d : List (String × PyVal)} (l : List (String × PyVal))
    {k : String} (h : dictLookup d k = Option.none) :
    dictLookup (d ++ l) k = dictLookup l k := by
  induction d with
  | nil => rfl
  | cons p ps ih =>
      by_cases hp : p.1 = k
      · simp [dictLookup, List.find?_cons, hp] at h
      · have h2 : dictLookup ps k = Option.none := by
          simpa [dictLookup, List.find?_cons, hp] using h
        simpa [dictLookup, List.find?_cons, hp] using ih h2

theorem dictLookup_mapSet_self (k : String) (v : PyVal) :
    ∀ d : List (String × PyVal), hasKey d k = true →
      dictLookup (d.map (fun p => if p.1 = k then (k, v) else p)) k = some v := by
  intro d
  induction d with
  | nil => intro h; simp [hasKey] at h
  | cons p ps ih =>
      intro h
      by_cases hp : p.1 = k
      · simp [dictLookup, List.find?_cons, hp]
      · have h2 : hasKey ps k = true := by
          simpa [hasKey, List.any_cons, hp] using h
        simpa [dictLookup, List.find?_cons, hp] using ih h2

theorem dictLookup_mapSet_other (k : String) (v : PyVal) (k2 : String) (h : ¬ k2 = k) :
    ∀ d : List (String × PyVal),
      dictLookup (d.map (fun p => if p.1 = k then (k, v) else p)) k2 = dictLookup d k2 := by
  intro d
  induction d with
  | nil => rfl
  | cons p ps ih =>
      by_cases hp : p.1 = k
      · have hne : ¬ p.1 = k2 := by rw [hp]; exact fun h2 => h h2.symm
        have hne2 : ¬ (k = k2) := fun h2 => h h2.symm
        simpa [dictLookup, List.find?_cons, hp, hne, hne2] using ih
      · by_cases hq : p.1 = k2
        · simp [dictLookup, List.find?_cons, List.map_cons, hp, hq, h]
        · simpa [dictLookup, List.find?_cons, List.map_cons, hp, hq] using ih

theorem dictLookup_dictSet_self (d : List (String × PyVal)) (k : String) (v : PyVal) :
    dictLookup (dictSet d k v) k = some v := by
  rw [dictSet]
  by_cases hk : hasKey d k = true
  · rw [if_pos hk]
    exact dictLookup_mapSet_self k v d hk
  · rw [if_neg hk]
    have hnone : dictLookup d k = Option.none := by
      rw [hasKey_eq_isSome] at hk
      cases hd : dictLookup d k with
      | none => rfl
      | some w => rw [hd] at hk; simp at hk
    rw [dictLookup_append_right _ hnone]
    simp [dictLookup, List.find?_cons]

theorem dictLookup_dictSet_other (d : List (String × PyVal)) (k : String) (v : PyVal)
    (k2 : String) (h : ¬ k2 = k) : dictLookup (dictSet d k v) k2 = dictLookup d k2 := by
  rw [dictSet]
  by_cases hk : hasKey d k = true
  · rw [if_pos hk]
    exact dictLookup_mapSet_other k v k2 h d
  · rw [if_neg hk]
    cases hd : dictLookup d k2 with
    | some w => exact dictLookup_append_left hd
    | none =>
        rw [dictLookup_append_right _ hd]
        have hkk : ¬ k = k2 := fun h2 => h h2.symm
        simp [dictLookup, List.find?_cons, hkk]

theorem copyOthers_lookup_absent (k : String) :
    ∀ (l : List (String × PyVal)) (d : List (String × PyVal)),
      (∀ p ∈ l, ¬ p.1 = k) →
      dictLookup (copyOthers d l) k = dictLookup d k := by
  intro l
  induction l with
  | nil => intro d _; rfl
  | cons p ps ih =>
      intro d hall
      rw [copyOthers]
      by_cases hex : p.1 ∈ ["id", "partition_key", "timestamp", "value", "count", "total_value"]
      · rw [if_pos hex]
        exact ih d (fun p2 hp2 => hall p2 (List.mem_cons_of_mem _ hp2))
      · rw [if_neg hex]
        rw [ih _ (fun p2 hp2 => hall p2 (List.mem_cons_of_mem _ hp2))]
        exact dictLookup_dictSet_other d p.1 p.2 k
          (fun h2 => (hall p (List.mem_cons_self _ _)) h2.symm)

theorem transformDataVC_no_average (rd : List (String × PyVal)) :
    dictLookup (transformDataVC rd) "average" = Option.none := by
  have hd1 : ∀ (o : Option PyVal), dictLookup (match o with
      | some v => match pyFloat v with
        | .ok q => dictSet [] "value" (.float q)
        | .error _ => []
      | Option.none => ([] : List (String × PyVal))) "average" = Option.none := by
    intro o
    cases o with
    | none => rfl
    | some v =>
        cases hf : pyFloat v with
        | ok q =>
            dsimp only
            simp only [hf]
            exact (dictLookup_dictSet_other _ _ _ _ (by decide)).trans rfl
        | error e => dsimp only; simp only [hf]; rfl
  rw [transformDataVC]
  cases hcnt : dictLookup rd "count" with
  | none => exact hd1 _
  | some v =>
      dsimp only
      cases hf : pyInt v with
      | ok n =>
          simp only [hf]
          exact (dictLookup_dictSet_other _ _ _ _ (by decide)).trans (hd1 _)
      | error e => simp only [hf]; exact hd1 _

theorem transformDataCore_average_pos {rd : List (String × PyVal)} {tv c : PyVal}
    {q : ℚ} {n : Int} (htv : dictLookup rd "total_value" = some tv)
    (hc : dictLookup rd "count" = some c) (hq : pyFloat tv = .ok q)
    (hn : pyInt c = .ok n) (hpos : 0 < n) :
    dictLookup (transformDataCore rd) "average" = some (.float (q / (n : ℚ))) := by
  simp only [transformDataCore, htv, hc, hq, hn]
  rw [if_pos hpos]
  exact dictLookup_dictSet_self _ _ _

theorem transformDataCore_average_nonpos {rd : List (String × PyVal)} {tv c : PyVal}
    {q : ℚ} {n : Int} (htv : dictLookup rd "total_value" = some tv)
    (hc : dictLookup rd "count" = some c) (hq : pyFloat tv = .ok q)
    (hn : pyInt c = .ok n) (hnp : ¬ 0 < n) :
    dictLookup (transformDataCore rd) "average" = Option.none := by
  simp only [transformDataCore, htv, hc, hq, hn]
  rw [if_neg hnp]
  exact transformDataVC_no_average rd

theorem transformDataCore_average_float_err {rd : List (String × PyVal)} {tv c : PyVal}
    {e : String} (htv : dictLookup rd "total_value" = some tv)
    (hc : dictLookup rd "count" = some c) (hq : pyFloat tv = .error e) :
    dictLookup (transformDataCore rd) "average" = Option.none := by
  simp only [transformDataCore, htv, hc, hq]
  exact transformDataVC_no_average rd

theorem transformDataCore_average_int_err {rd : List (String × PyVal)} {tv c : PyVal}
    {q : ℚ} {e : String} (htv : dictLookup rd "total_value" = some tv)
    (hc : dictLookup rd "count" = some c) (hq : pyFloat tv = .ok q)
    (hn : pyInt c = .error e) :
    dictLookup (transformDataCore rd) "average" = Option.none := by
  simp only [transformDataCore, htv, hc, hq, hn]
  exact transformDataVC_no_average rd

theorem mkTransformed_data (now : String) (rd : List (String × PyVal)) :
    dictLookup (mkTransformed now rd) "data" =
      some (.dict (copyOthers (transformDataCore rd) rd)) := by
  simp [mkTransformed, dictLookup, List.find?_cons]

/-- C6 (falsified as stated): a record carrying a convertible
`total_value = 100` and `count = 4 > 0` but also its own `average` field
is emitted with `data.average` equal to the copied source value `"x"`, not
the quotient 25.0 — the copy loop (which excludes only id, partition_key,
timestamp, value, count, total_value) overwrites the computed average. -/
theorem transformer_average_overwritten_by_source_field :
    transformRecord "NOW" (.dict [("id", .str "r1"), ("timestamp", .str "t"),
        ("total_value", .int 100), ("count", .int 4), ("average", .str "x")]) =
      .ok (.dict [("id", .str "r1"), ("timestamp", .str "t"), ("processed_at", .str "NOW"),
        ("data", .dict [("count", .int 4), ("average", .str "x")])]) ∧
    pyFloat (.int 100) = .ok ((100 : Int) : ℚ) ∧
    pyInt (.int 4) = .ok 4 ∧
    (0 : Int) < 4 ∧
    isNumericPy (.str "x") = false :=
  ⟨rfl, rfl, rfl, by decide, rfl⟩

/-- C6 (amended): for a record whose coerced `record_dict` carries a
convertible `total_value` and `count` and no `average` field of its own
(such a field would be copied over the computed value), the transformer
emits the record with `data.average` equal to `total_value / count` when
the divisor is positive; when the divisor is not positive or either
conversion raises, the average is skipped silently and the record is still
emitted — the positivity guard runs before the division, which therefore
never executes on a zero divisor. -/
theorem transformer_average_field (now : String) (kvs rd : List (String × PyVal))
    (tv c : PyVal) (q : ℚ) (n : Int)
    (hrd : coerceRecordDict kvs = .ok rd)
    (hnavg : hasKey rd "average" = false)
    (htv : dictLookup rd "total_value" = some tv)
    (hc : dictLookup rd "count" = some c) :
    (pyFloat tv = .ok q → pyInt c = .ok n → 0 < n →
      transformRecord now (.dict kvs) = .ok (.dict (mkTransformed now rd)) ∧
      ∃ d, dictLookup (mkTransformed now rd) "data" = some (.dict d) ∧
        dictLookup d "average" = some (.float (q / (n : ℚ)))) ∧
    (pyFloat tv = .ok q → pyInt c = .ok n → n ≤ 0 →
      transformRecord now (.dict kvs) = .ok (.dict (mkTransformed now rd)) ∧
      ∃ d, dictLookup (mkTransformed now rd) "data" = some (.dict d) ∧
        dictLookup d "average" = Option.none) ∧
    (∀ e, pyFloat tv = .error e →
      transformRecord now (.dict kvs) = .ok (.dict (mkTransformed now rd)) ∧
      ∃ d, dictLookup (mkTransformed now rd) "data" = some (.dict d) ∧
        dictLookup d "average" = Option.none) ∧
    (∀ e, pyFloat tv = .ok q → pyInt c = .error e →
      transformRecord now (.dict kvs) = .ok (.dict (mkTransformed now rd)) ∧
      ∃ d, dictLookup (mkTransformed now rd) "data" = some (.dict d) ∧
        dictLookup d "average" = Option.none) := by
  have hemit : transformRecord now (.dict kvs) = .ok (.dict (mkTransformed now rd)) := by
    rw [transformRecord, hrd]
  have habsent : ∀ p ∈ rd, ¬ p.1 = "average" := by
    intro p hp
    simp only [hasKey, List.any_eq_false, decide_eq_true_eq] at hnavg
    exact hnavg p hp
  have hcopy : dictLookup (copyOthers (transformDataCore rd) rd) "average" =
      dictLookup (transformDataCore rd) "average" :=
    copyOthers_lookup_absent "average" rd (transformDataCore rd) habsent
  refine ⟨?_, ?_, ?_, ?_⟩
  · intro hq hn hpos
    refine ⟨hemit, copyOthers (transformDataCore rd) rd, mkTransformed_data now rd, ?_⟩
    rw [hcopy]
    exact transformDataCore_average_pos htv hc hq hn hpos
  · intro hq hn hnp
    refine ⟨hemit, copyOthers (transformDataCore rd) rd, mkTransformed_data now rd, ?_⟩
    rw [hcopy]
    exact transformDataCore_average_nonpos htv hc hq hn (by omega)
  · intro e he
    refine ⟨hemit, copyOthers (transformDataCore rd) rd, mkTransformed_data now rd, ?_⟩
    rw [hcopy]
    exact transformDataCore_average_float_err htv hc he
  · intro e hq he
    refine ⟨hemit, copyOthers (transformDataCore rd) rd, mkTransformed_data now rd, ?_⟩
    rw [hcopy]
    exact transformDataCore_average_int_err htv hc hq he

/-- Witness for C6 at Scenario A's record
`{"id": "r1", "timestamp": "2024-01-01T00:00:00Z", "total_value": 100,
"count": 4}`: the emitted record carries `data.average = 100/4`, and
`100/4 = 25` as claimed by the scenario. -/
theorem transformer_average_field_witness :
    (transformRecord "T" (.dict [("id", .str "r1"),
        ("timestamp", .str "2024-01-01T00:00:00Z"),
        ("total_value", .int 100), ("count", .int 4)]) =
      .ok (.dict (mkTransformed "T" [("id", .str "r1"),
        ("timestamp", .str "2024-01-01T00:00:00Z"),
        ("total_value", .int 100), ("count", .int 4)])) ∧
      ∃ d, dictLookup (mkTransformed "T" [("id", .str "r1"),
          ("timestamp", .str "2024-01-01T00:00:00Z"),
          ("total_value", .int 100), ("count", .int 4)]) "data" = some (.dict d) ∧
        dictLookup d "average" = some (.float (((100 : Int) : ℚ) / ((4 : Int) : ℚ)))) ∧
    ((100 : Int) : ℚ) / ((4 : Int) : ℚ) = 25 :=
  ⟨(transformer_average_field "T"
      [("id", .str "r1"), ("timestamp", .str "2024-01-01T00:00:00Z"),
        ("total_value", .int 100), ("count", .int 4)]
      [("id", .str "r1"), ("timestamp", .str "2024-01-01T00:00:00Z"),
        ("total_value", .int 100), ("count", .int 4)]
      (.int 100) (.int 4) ((100 : Int) : ℚ) 4 rfl rfl rfl rfl).1 rfl rfl (by decide),
    by norm_num⟩

/-! ## C8: order.completed updates only the status field, no duplicates -/

theorem tblLookup_append_left {d l : OrdersTable} {k : String}
    {w : List (String × PyVal)} (h : tblLookup d k = some w) :
    tblLookup (d ++ l) k = some w := by
  induction d with
  | nil => simp [tblLookup] at h
  | cons p ps ih =>
      by_cases hp : p.1 = k
      · simpa [tblLookup, List.find?_cons, hp] using
          (by simpa [tblLookup, List.find?_cons, hp] using h : p.2 = w)
      · have h2 : tblLookup ps k = some w := by
          simpa [tblLookup, List.find?_cons, hp] using h
        simpa [tblLookup, List.find?_cons, hp] using ih h2

theorem tblLookup_append_right {d : OrdersTable} (l : OrdersTable) {k : String}
    (h : tblLookup d k = Option.none) : tblLookup (d ++ l) k = tblLookup l k := by
  induction d with
  | nil => rfl
  | cons p ps ih =>
      by_cases hp : p.1 = k
      · simp [tblLookup, List.find?_cons, hp] at h
      · have h2 : tblLookup ps k = Option.none := by
          simpa [tblLookup, List.find?_cons, hp] using h
        simpa [tblLookup, List.find?_cons, hp] using ih h2

theorem processDetail_completed (tbl : OrdersTable) (oid : String) (h : ¬ oid = "") :
    processDetail (completedDetail oid) tbl = (updateOrderStatus tbl oid, true) := by
  simp [processDetail, completedDetail, handleCompleted, dictGet, dictLookup,
    List.find?_cons, pyFalsy, h]

theorem processDetail_created (tbl : OrdersTable) (oid : String) (h : ¬ oid = "") :
    processDetail (createdDetail oid) tbl =
      (putOrder tbl oid
        [("order_id", .str oid), ("status", .str "processing"),
         ("customer_id", .str ""), ("items", .list []), ("total", .int 0),
         ("created_at", .str "")], true) := by
  simp [processDetail, createdDetail, handleCreated, dictGet, dictLookup,
    List.find?_cons, pyFalsy, h]

theorem tblLookup_putOrder_self (tbl : OrdersTable) (oid : String)
    (item : List (String × PyVal)) : tblLookup (putOrder tbl oid item) oid = some item := by
  induction tbl with
  | nil => simp [putOrder, tblLookup, List.find?_cons]
  | cons p ps ih =>
      rw [putOrder, List.filter_cons]
      by_cases hp : p.1 = oid
      · rw [if_neg (by simp [hp])]
        exact ih
      · rw [if_pos (by simp [hp]), List.cons_append]
        rw [show tblLookup (p :: (List.filter (fun p => p.1 ≠ oid) ps ++ [(oid, item)]))
            oid = tblLookup (List.filter (fun p => p.1 ≠ oid) ps ++ [(oid, item)]) oid
          from by simp [tblLookup, List.find?_cons, hp]]
        exact ih

theorem tblLookup_cons_eq {p : String × List (String × PyVal)} {ps : OrdersTable}
    {k : String} (h : p.1 = k) : tblLookup (p :: ps) k = some p.2 := by
  simp [tblLookup, List.find?_cons, h]

theorem tblLookup_cons_ne {p : String × List (String × PyVal)} {ps : OrdersTable}
    {k : String} (h : ¬ p.1 = k) : tblLookup (p :: ps) k = tblLookup ps k := by
  simp [tblLookup, List.find?_cons, h]

theorem tblLookup_filter_ne (tbl : OrdersTable) (oid oid2 : String)
    (h : ¬ oid2 = oid) :
    tblLookup (tbl.filter (fun p => p.1 ≠ oid)) oid2 = tblLookup tbl oid2 := by
  induction tbl with
  | nil => rfl
  | cons p ps ih =>
      rw [List.filter_cons]
      by_cases hp : p.1 = oid
      · rw [if_neg (by simp [hp])]
        have hne : ¬ p.1 = oid2 := by rw [hp]; exact fun h2 => h h2.symm
        rw [tblLookup_cons_ne hne]
        exact ih
      · rw [if_pos (by simp [hp])]
        by_cases hq : p.1 = oid2
        · rw [tblLookup_cons_eq hq, tblLookup_cons_eq hq]
        · rw [tblLookup_cons_ne hq, tblLookup_cons_ne hq]
          exact ih

theorem tblLookup_putOrder_other (tbl : OrdersTable) (oid : String)
    (item : List (String × PyVal)) (oid2 : String) (h : ¬ oid2 = oid) :
    tblLookup (putOrder tbl oid item) oid2 = tblLookup tbl oid2 := by
  rw [putOrder]
  have hf := tblLookup_filter_ne tbl oid oid2 h
  cases hd : tblLookup (tbl.filter (fun p => p.1 ≠ oid)) oid2 with
  | some w => rw [tblLookup_append_left hd, ← hf, hd]
  | none =>
      rw [tblLookup_append_right _ hd, ← hf, hd]
      have hne : ¬ oid = oid2 := fun h2 => h h2.symm
      simp [tblLookup, List.find?_cons, hne]

theorem count_putOrder (tbl : OrdersTable) (oid : String)
    (item : List (String × PyVal)) :
    ((putOrder tbl oid item).filter (fun p => p.1 = oid)).length = 1 := by
  rw [putOrder, List.filter_append]
  have h1 : (tbl.filter (fun p => p.1 ≠ oid)).filter (fun p => p.1 = oid) = [] := by
    induction tbl with
    | nil => rfl
    | cons p ps ih =>
        rw [List.filter_cons]
        by_cases hp : p.1 = oid
        · rw [if_neg (by simp [hp])]
          exact ih
        · rw [if_pos (by simp [hp])]
          rw [List.filter_cons, if_neg (by simp [hp])]
          exact ih
  rw [h1]
  simp [List.filter_cons]

theorem count_map_status (oid k : String) : ∀ l : OrdersTable,
    ((l.map (fun p =>
        if p.1 = oid then (oid, dictSet p.2 "status" (.str "completed")) else p)).filter
      (fun p => p.1 = k)).length = (l.filter (fun p => p.1 = k)).length := by
  intro l
  induction l with
  | nil => rfl
  | cons p ps ih =>
      rw [List.map_cons]
      by_cases hp : p.1 = oid
      · rw [if_pos hp, List.filter_cons, List.filter_cons]
        by_cases hk : p.1 = k
        · have hok : oid = k := hp.symm.trans hk
          rw [if_pos (by simp [hok]), if_pos (by simp [hk])]
          simp only [List.length_cons, ih]
        · have hok : ¬ oid = k := fun h2 => hk (hp.trans h2)
          rw [if_neg (by simp [hok]), if_neg (by simp [hk])]
          exact ih
      · rw [if_neg hp, List.filter_cons, List.filter_cons]
        by_cases hk : p.1 = k
        · rw [if_pos (by simp [hk]), if_pos (by simp [hk])]
          simp only [List.length_cons, ih]
        · rw [if_neg (by simp [hk]), if_neg (by simp [hk])]
          exact ih

theorem any_of_tblLookup_some {tbl : OrdersTable} {oid : String}
    {item : List (String × PyVal)} (h : tblLookup tbl oid = some item) :
    tbl.any (fun p => p.1 = oid) = true := by
  rw [tblLookup] at h
  cases hf : tbl.find? (fun p => decide (p.1 = oid)) with
  | none => rw [hf] at h; simp at h
  | some p =>
      have hmem := List.mem_of_find?_eq_some hf
      have hpred := List.find?_some hf
      exact List.any_eq_true.mpr ⟨p, hmem, hpred⟩

theorem tblLookup_update_self {tbl : OrdersTable} {oid : String}
    {item : List (String × PyVal)} (h : tblLookup tbl oid = some item) :
    tblLookup (updateOrderStatus tbl oid) oid =
      some (dictSet item "status" (.str "completed")) := by
  rw [updateOrderStatus, if_pos (any_of_tblLookup_some h)]
  induction tbl with
  | nil => simp [tblLookup] at h
  | cons p ps ih =>
      by_cases hp : p.1 = oid
      · have hv : p.2 = item := by simpa [tblLookup, List.find?_cons, hp] using h
        subst hv
        simp [tblLookup, List.find?_cons, hp]
      · have h2 : tblLookup ps oid = some item := by
          simpa [tblLookup, List.find?_cons, hp] using h
        simpa [tblLookup, List.find?_cons, hp] using ih h2

theorem tblLookup_update_other (tbl : OrdersTable) (oid oid2 : String)
    (h : ¬ oid2 = oid) :
    tblLookup (updateOrderStatus tbl oid) oid2 = tblLookup tbl oid2 := by
  rw [updateOrderStatus]
  by_cases hany : tbl.any (fun p => p.1 = oid) = true
  · rw [if_pos hany]
    have : ∀ l : OrdersTable,
        tblLookup (l.map (fun p =>
          if p.1 = oid then (oid, dictSet p.2 "status" (.str "completed")) else p)) oid2 =
          tblLookup l oid2 := by
      intro l
      induction l with
      | nil => rfl
      | cons p ps ih =>
          rw [List.map_cons]
          by_cases hp : p.1 = oid
          · rw [if_pos hp]
            have hne : ¬ (oid, dictSet p.2 "status" (PyVal.str "completed")).1 = oid2 :=
              fun h2 => h h2.symm
            rw [tblLookup_cons_ne hne]
            have hne2 : ¬ p.1 = oid2 := by rw [hp]; exact fun h2 => h h2.symm
            rw [tblLookup_cons_ne hne2]
            exact ih
          · rw [if_neg hp]
            by_cases hq : p.1 = oid2
            · rw [tblLookup_cons_eq hq, tblLookup_cons_eq hq]
            · rw [tblLookup_cons_ne hq, tblLookup_cons_ne hq]
              exact ih
    exact this tbl
  · rw [if_neg hany]
    cases hd : tblLookup tbl oid2 with
    | some w => exact tblLookup_append_left hd
    | none =>
        rw [tblLookup_append_right _ hd]
        have hne : ¬ oid = oid2 := fun h2 => h h2.symm
        simp [tblLookup, List.find?_cons, hne]

/-- C8: handling `order.completed` for an order identifier updates only the
stored order's `status` field to `"completed"` — every other field of that
order and every other order are untouched; and dispatching `order.created`
then `order.completed` for the same identifier leaves exactly one stored
record for it, whose status is `"completed"`. -/
theorem order_completed_updates_status_only (tbl : OrdersTable) (oid : String)
    (h : ¬ oid = "") :
    (∀ item, tblLookup tbl oid = some item →
      tblLookup (processDetail (completedDetail oid) tbl).1 oid =
        some (dictSet item "status" (.str "completed")) ∧
      (∀ k, ¬ k = "status" →
        dictLookup (dictSet item "status" (.str "completed")) k = dictLookup item k) ∧
      dictLookup (dictSet item "status" (.str "completed")) "status" =
        some (.str "completed") ∧
      (∀ oid2, ¬ oid2 = oid →
        tblLookup (processDetail (completedDetail oid) tbl).1 oid2 =
          tblLookup tbl oid2)) ∧
    (((processDetail (completedDetail oid)
          (processDetail (createdDetail oid) tbl).1).1.filter
        (fun p => p.1 = oid)).length = 1 ∧
      ∃ item, tblLookup (processDetail (completedDetail oid)
          (processDetail (createdDetail oid) tbl).1).1 oid = some item ∧
        dictLookup item "status" = some (.str "completed")) := by
  constructor
  · intro item hitem
    rw [processDetail_completed tbl oid h]
    refine ⟨tblLookup_update_self hitem, ?_, dictLookup_dictSet_self _ _ _, ?_⟩
    · intro k hk
      exact dictLookup_dictSet_other _ _ _ _ hk
    · intro oid2 hne
      exact tblLookup_update_other tbl oid oid2 hne
  · rw [processDetail_created tbl oid h]
    have hlk1 : tblLookup (putOrder tbl oid
        [("order_id", .str oid), ("status", .str "processing"),
         ("customer_id", .str ""), ("items", .list []), ("total", .int 0),
         ("created_at", .str "")]) oid = some
        [("order_id", .str oid), ("status", .str "processing"),
         ("customer_id", .str ""), ("items", .list []), ("total", .int 0),
         ("created_at", .str "")] := tblLookup_putOrder_self _ _ _
    rw [processDetail_completed _ oid h]
    constructor
    · rw [updateOrderStatus, if_pos (any_of_tblLookup_some hlk1)]
      rw [count_map_status oid oid]
      exact count_putOrder tbl oid _
    · exact ⟨_, tblLookup_update_self hlk1, dictLookup_dictSet_self _ _ _⟩

/-- Witness for C8 at `oid = "o1"` over the empty orders table. -/
theorem order_completed_updates_status_only_witness :
    (∀ item, tblLookup [] "o1" = some item →
      tblLookup (processDetail (completedDetail "o1") []).1 "o1" =
        some (dictSet item "status" (.str "completed")) ∧
      (∀ k, ¬ k = "status" →
        dictLookup (dictSet item "status" (.str "completed")) k = dictLookup item k) ∧
      dictLookup (dictSet item "status" (.str "completed")) "status" =
        some (.str "completed") ∧
      (∀ oid2, ¬ oid2 = "o1" →
        tblLookup (processDetail (completedDetail "o1") []).1 oid2 =
          tblLookup [] oid2)) ∧
    (((processDetail (completedDetail "o1")
          (processDetail (createdDetail "o1") []).1).1.filter
        (fun p => p.1 = "o1")).length = 1 ∧
      ∃ item, tblLookup (processDetail (completedDetail "o1")
          (processDetail (createdDetail "o1") []).1).1 "o1" = some item ∧
        dictLookup item "status" = some (.str "completed")) :=
  order_completed_updates_status_only [] "o1" (by decide)
